import Mathlib

/-!
Shallow embedding of the McDonald's order-management system
(`app/page.tsx`): a priority-aware order queue processed by a pool of
cooking bots.  React state (`orders`, `bots`, `nextOrderId`, `nextBotId`,
the `timeoutsRef` timer table and the delayed-removal timers scheduled by
`cancelOrder`) is modelled as an explicit record `SysState`; every event
handler and effect of the source becomes a pure state-transformer, and the
whole system is a step relation over `SysState`.
-/

namespace McD

/-- Order lifecycle states (`'PENDING' | 'PROCESSING' | 'COMPLETE'`). -/
inductive OrderStatus where
  | pending
  | processing
  | complete
deriving DecidableEq

/-- Bot lifecycle states (`'IDLE' | 'PROCESSING'`). -/
inductive BotStatus where
  | idle
  | processing
deriving DecidableEq

/-- The `Order` interface of the source. -/
structure Order where
  id : Nat
  status : OrderStatus
  botId : Option Nat
  isVIP : Bool
  progress : Option Nat
  startTime : Option Nat
  animation : Option String
deriving DecidableEq

/-- The `Bot` interface of the source. -/
structure Bot where
  id : Nat
  status : BotStatus
  processingOrderId : Option Nat
deriving DecidableEq

/-- Full mutable state of the component: the four `useState` cells, the
`timeoutsRef` table (keyed by the (bot id, order id) pair encoded in the
string key `bot-B-order-O`), and the list of order ids with a pending
delayed-removal timer scheduled by `cancelOrder`. -/
structure SysState where
  orders : List Order
  nextOrderId : Nat
  bots : List Bot
  nextBotId : Nat
  timeouts : List (Nat × Nat)
  removals : List Nat
deriving DecidableEq

/-- `COOKING_TIME_MS = 10000`. -/
def COOKING_TIME_MS : Nat := 10000

def Order.isPending (o : Order) : Bool := o.status == .pending

def isPendingVIP (o : Order) : Bool := o.isVIP && o.status == .pending

def isPendingNormal (o : Order) : Bool := !o.isVIP && o.status == .pending

def Bot.isIdle (b : Bot) : Bool := b.status == .idle

def Bot.isBusy (b : Bot) : Bool := b.status == .processing

/-- Freshly submitted normal order (`addNormalOrder`'s `newOrder`). -/
def newNormalOrder (oid : Nat) : Order :=
  ⟨oid, .pending, none, false, none, none, some "new"⟩

/-- Freshly submitted VIP order (`addVIPOrder`'s `newOrder`). -/
def newVIPOrder (oid : Nat) : Order :=
  ⟨oid, .pending, none, true, none, none, some "new"⟩

/-- `addNormalOrder`: append at the tail of the whole sequence. -/
def addNormalOrder (s : SysState) : SysState :=
  { s with
    orders := s.orders ++ [newNormalOrder s.nextOrderId]
    nextOrderId := s.nextOrderId + 1 }

/-- The VIP insertion algorithm shared (textually duplicated in the
source) by `addVIPOrder` and the reinsertion branch of `removeBot`:
find the last PENDING VIP entry by a `findIndex` over the reversed list
and insert right after it; if there is none, insert right before the
first PENDING normal entry; if there is none of those either, append. -/
def vipInsert (newOrder : Order) (prevOrders : List Order) : List Order :=
  match prevOrders.reverse.findIdx? isPendingVIP with
  | none =>
    match prevOrders.findIdx? isPendingNormal with
    | none => prevOrders ++ [newOrder]
    | some i => prevOrders.take i ++ newOrder :: prevOrders.drop i
  | some r =>
    prevOrders.take (prevOrders.length - r) ++
      newOrder :: prevOrders.drop (prevOrders.length - r)

/-- `addVIPOrder`. -/
def addVIPOrder (s : SysState) : SysState :=
  { s with
    orders := vipInsert (newVIPOrder s.nextOrderId) s.orders
    nextOrderId := s.nextOrderId + 1 }

/-- `clearTimeout` + `delete timeoutsRef.current[key]`. -/
def clearTimeoutKey (k : Nat × Nat) (ts : List (Nat × Nat)) : List (Nat × Nat) :=
  ts.filter fun x => !(x == k)

/-- `timeoutsRef.current[key] = setTimeout(...)`: (re)registers the key,
after the source's `clearTimeout` of any previous timer under it. -/
def setTimeoutKey (k : Nat × Nat) (ts : List (Nat × Nat)) : List (Nat × Nat) :=
  k :: ts.filter fun x => !(x == k)

/-- Per-bot update of `assignOrderToBot`'s `setBots`. -/
def assignBotUpd (bid oid : Nat) (b : Bot) : Bot :=
  if b.id == bid then { b with status := .processing, processingOrderId := some oid }
  else b

/-- Per-order update of `assignOrderToBot`'s `setOrders`. -/
def assignOrderUpd (oid bid now : Nat) (o : Order) : Order :=
  if o.id == oid then
    { o with
      status := .processing
      botId := some bid
      progress := some 0
      startTime := some now
      animation := some "start-processing" }
  else o

/-- `assignOrderToBot`: mark the bot PROCESSING, mark the order
PROCESSING with `botId`, `progress = 0`, `startTime = now`, and schedule
the cook-duration completion timer under the (bot id, order id) key. -/
def assignOrderToBot (bot : Bot) (order : Order) (now : Nat) (s : SysState) : SysState :=
  { s with
    bots := s.bots.map (assignBotUpd bot.id order.id)
    orders := s.orders.map (assignOrderUpd order.id bot.id now)
    timeouts := setTimeoutKey (bot.id, order.id) s.timeouts }

/-- The validity check of `handleOrderComplete`: the bot still exists,
is still PROCESSING, and its `processingOrderId` still equals the
original order id. -/
def validPairing (s : SysState) (botId orderId : Nat) : Bool :=
  match s.bots.find? fun b => b.id == botId with
  | some currentBot =>
      currentBot.status == .processing && currentBot.processingOrderId == some orderId
  | none => false

/-- Per-bot update shared by `handleOrderComplete` and `cancelOrder`:
set the bot with the given id back to IDLE. -/
def idleBotUpd (bid : Nat) (b : Bot) : Bot :=
  if b.id == bid then { b with status := .idle, processingOrderId := none }
  else b

/-- Per-order update of `handleOrderComplete`'s `setOrders`. -/
def completeOrderUpd (oid bid : Nat) (o : Order) : Order :=
  if o.id == oid && o.status == .processing && o.botId == some bid then
    { o with
      status := .complete
      botId := none
      progress := none
      startTime := none
      animation := some "complete" }
  else o

/-- `handleOrderComplete`: on a valid pairing, complete the order (with
the additional per-order guard of the source) and idle the bot;
otherwise change nothing; in every case drop the timer key. -/
def handleOrderComplete (botId orderId : Nat) (s : SysState) : SysState :=
  let s' :=
    if validPairing s botId orderId then
      { s with
        orders := s.orders.map (completeOrderUpd orderId botId)
        bots := s.bots.map (idleBotUpd botId) }
    else s
  { s' with timeouts := clearTimeoutKey (botId, orderId) s'.timeouts }

/-- Per-order update of `cancelOrder`'s `setOrders`: mark the order
with the removing animation. -/
def markRemoving (oid : Nat) (o : Order) : Order :=
  if o.id == oid then { o with animation := some "removing" } else o

/-- `cancelOrder`: no-op on an unknown id; if the order is PROCESSING
with a bot, clear its cook timer and idle the bot; then mark the order
with the `removing` animation and schedule the delayed removal
(`setTimeout(..., ORDER_REMOVAL_ANIMATION_MS)`). -/
def cancelOrder (orderId : Nat) (s : SysState) : SysState :=
  match s.orders.find? fun o => o.id == orderId with
  | none => s
  | some orderToCancel =>
    let s₁ : SysState :=
      match orderToCancel.status == OrderStatus.processing, orderToCancel.botId with
      | true, some bid =>
        { s with
          timeouts := clearTimeoutKey (bid, orderId) s.timeouts
          bots := s.bots.map (idleBotUpd bid) }
      | _, _ => s
    { s₁ with
      orders := s₁.orders.map (markRemoving orderId)
      removals := orderId :: s₁.removals }

/-- The delayed-removal timer scheduled by `cancelOrder` fires: the
order is filtered out of the list. -/
def removalFire (orderId : Nat) (s : SysState) : SysState :=
  if orderId ∈ s.removals then
    { s with
      orders := s.orders.filter fun o => !(o.id == orderId)
      removals := s.removals.erase orderId }
  else s

/-- `addBot`: append a fresh IDLE bot. -/
def addBot (s : SysState) : SysState :=
  { s with
    bots := s.bots ++ [⟨s.nextBotId, .idle, none⟩]
    nextBotId := s.nextBotId + 1 }

/-- The order returned to PENDING by `removeBot`. -/
def returnedOrderOf (o : Order) : Order :=
  { o with
    status := .pending
    botId := none
    progress := none
    startTime := none
    animation := some "return-to-pending" }

/-- `removeBot`: no-op on an empty pool; otherwise take the last bot,
and if it is PROCESSING an order, clear its cook timer and reinsert the
order (if still present) into PENDING — VIP orders via the priority
insertion algorithm, normal orders at the absolute tail; finally drop
the last bot. -/
def removeBot (s : SysState) : SysState :=
  match s.bots.getLast? with
  | none => s
  | some botToRemove =>
    let s₁ : SysState :=
      match botToRemove.status == BotStatus.processing, botToRemove.processingOrderId with
      | true, some oid =>
        let s₂ := { s with timeouts := clearTimeoutKey (botToRemove.id, oid) s.timeouts }
        match s₂.orders.find? fun o => o.id == oid with
        | none => s₂
        | some orderToReturn =>
          let updated := s₂.orders.filter fun o => !(o.id == oid)
          let returned := returnedOrderOf orderToReturn
          { s₂ with
            orders :=
              if returned.isVIP then vipInsert returned updated
              else updated ++ [returned] }
      | _, _ => s
    { s₁ with bots := s₁.bots.dropLast }

/-- The `prioritizedOrders` list of the order-processing effect:
pending VIP orders first, then pending normal orders. -/
def prioritizedOf (s : SysState) : List Order :=
  (s.orders.filter Order.isPending).filter (fun o => o.isVIP) ++
    (s.orders.filter Order.isPending).filter fun o => !o.isVIP

/-- One run of the order-processing effect: if an idle bot and a
prioritized pending order both exist, assign the first idle bot to the
head of the prioritized sequence. -/
def matchPass (now : Nat) (s : SysState) : SysState :=
  match s.bots.filter Bot.isIdle, prioritizedOf s with
  | b :: _, o :: _ => assignOrderToBot b o now s
  | _, _ => s

/-- A cook-duration timer fires: only timers actually registered in the
table can fire (a cleared timer cannot). -/
def timerFire (botId orderId : Nat) (s : SysState) : SysState :=
  if (botId, orderId) ∈ s.timeouts then handleOrderComplete botId orderId s else s

/-- Progress percentage computed by the progress-update effect:
`Math.min(Math.floor((elapsed / COOKING_TIME_MS) * 100), 100)`. -/
def progressOf (now start : Nat) : Nat :=
  min ((now - start) * 100 / COOKING_TIME_MS) 100

/-- Per-order update of the progress-update interval's `setOrders`. -/
def tickUpd (now : Nat) (o : Order) : Order :=
  match o.status == OrderStatus.processing, o.startTime with
  | true, some t => { o with progress := some (progressOf now t) }
  | _, _ => o

/-- One tick of the progress-update interval. -/
def progressTick (now : Nat) (s : SysState) : SysState :=
  { s with orders := s.orders.map (tickUpd now) }

/-- Per-order update of the animation-cleanup effect. -/
def animUpd (o : Order) : Order :=
  if o.animation.isSome then { o with animation := none } else o

/-- One run of the animation-cleanup effect. -/
def animClear (s : SysState) : SysState :=
  { s with orders := s.orders.map animUpd }

/-- The external and internal events that can mutate the state. -/
inductive Event where
  | submitNormal
  | submitVIP
  | cancel (orderId : Nat)
  | addBot
  | removeBot
  | fire (botId orderId : Nat)
  | removal (orderId : Nat)
  | reconcile (now : Nat)
  | tick (now : Nat)
  | anim

/-- The transition function of the whole system. -/
def step : Event → SysState → SysState
  | .submitNormal, s => addNormalOrder s
  | .submitVIP, s => addVIPOrder s
  | .cancel oid, s => cancelOrder oid s
  | .addBot, s => addBot s
  | .removeBot, s => removeBot s
  | .fire b o, s => timerFire b o s
  | .removal oid, s => removalFire oid s
  | .reconcile now, s => matchPass now s
  | .tick now, s => progressTick now s
  | .anim, s => animClear s

/-- The initial mounted state: no orders, no bots, both id counters at 1. -/
def initState : SysState := ⟨[], 1, [], 1, [], []⟩

/-- States reachable by any sequence of events from the initial state. -/
inductive Reachable : SysState → Prop where
  | init : Reachable initState
  | next : ∀ (e : Event) (s : SysState), Reachable s → Reachable (step e s)

/-- Priority precedence between two orders: a NORMAL order may not sit
in front of a VIP order. -/
def VIPbefore (a b : Order) : Prop := b.isVIP = true → a.isVIP = true

/-- The queue-ordering invariant on the PENDING subsequence: every VIP
entry precedes every NORMAL entry. -/
def PendingOrdered (l : List Order) : Prop :=
  (l.filter Order.isPending).Pairwise VIPbefore

/-- Two busy bots never share a processing order. -/
def RBusy (a b : Bot) : Prop :=
  a.status = .processing → b.status = .processing →
    a.processingOrderId ≠ b.processingOrderId

/-- The state invariant: bots sorted by id below the id counter, order
ids distinct and below the id counter, the PENDING subsequence
priority-ordered, every busy bot pointing (when its order is still
present) at a PROCESSING order that points back, and no two busy bots
sharing an order. -/
def Inv (s : SysState) : Prop :=
  s.bots.Pairwise (fun a b => a.id < b.id) ∧
  (∀ b ∈ s.bots, b.id < s.nextBotId) ∧
  s.orders.Pairwise (fun a b => a.id ≠ b.id) ∧
  (∀ o ∈ s.orders, o.id < s.nextOrderId) ∧
  PendingOrdered s.orders ∧
  (∀ b ∈ s.bots, b.status = .processing →
    ∃ oid, b.processingOrderId = some oid ∧ oid < s.nextOrderId ∧
      ∀ o ∈ s.orders, o.id = oid → o.status = .processing ∧ o.botId = some b.id) ∧
  s.bots.Pairwise RBusy

/-- Membership of one priority class of PENDING orders. -/
def classPend (vip : Bool) (o : Order) : Bool :=
  o.isVIP == vip && o.status == OrderStatus.pending

/-- Ids of the PENDING orders of one priority class, in sequence order. -/
def pendingIdsOf (vip : Bool) (s : SysState) : List Nat :=
  (s.orders.filter (classPend vip)).map fun o => o.id

/-- One step preserves FIFO order within a priority class: the pending
ids of the class afterwards split into the survivors of the previous
pending ids, in their previous relative order, followed by ids that
were not pending in that class before. -/
def FIFOStep (s s' : SysState) (vip : Bool) : Prop :=
  ∃ kept fresh, pendingIdsOf vip s' = kept ++ fresh ∧
    kept.Sublist (pendingIdsOf vip s) ∧
    ∀ x ∈ fresh, x ∉ pendingIdsOf vip s

/-- Number of idle bots. -/
def idleCount (s : SysState) : Nat := (s.bots.filter Bot.isIdle).length

/-- Iterated matching passes, as the effect system re-runs the
order-processing effect after each assignment. -/
def reconcileAll (now : Nat) : Nat → SysState → SysState
  | 0, s => s
  | n + 1, s => reconcileAll now n (matchPass now s)

/-! ### Basic facts about the predicates -/

theorem isPending_iff {o : Order} : o.isPending = true ↔ o.status = .pending := by
  simp [Order.isPending]

theorem isPendingVIP_iff {o : Order} :
    isPendingVIP o = true ↔ o.isVIP = true ∧ o.status = .pending := by
  simp [isPendingVIP]

theorem isPendingNormal_iff {o : Order} :
    isPendingNormal o = true ↔ o.isVIP = false ∧ o.status = .pending := by
  simp [isPendingNormal]

theorem isBusy_iff {b : Bot} : b.isBusy = true ↔ b.status = .processing := by
  simp [Bot.isBusy]

theorem isIdle_iff {b : Bot} : b.isIdle = true ↔ b.status = .idle := by
  simp [Bot.isIdle]

theorem pending_cases {o : Order} (h : o.isPending = true) :
    isPendingVIP o = true ∨ isPendingNormal o = true := by
  rcases isPending_iff.mp h with hs
  by_cases hv : o.isVIP = true
  · exact Or.inl (isPendingVIP_iff.mpr ⟨hv, hs⟩)
  · exact Or.inr (isPendingNormal_iff.mpr ⟨by simpa using hv, hs⟩)

theorem RBusy_symm : ∀ {a b : Bot}, RBusy a b → RBusy b a := by
  intro a b h ha hb
  exact fun hEq => h hb ha hEq.symm

/-! ### Generic list helpers -/

theorem findIdx?_append_cons {α : Type} (p : α → Bool) (a : List α) (v : α) (b : List α)
    (hn : ∀ x ∈ a, p x = false) (hv : p v = true) :
    ∀ i, List.findIdx? p (a ++ v :: b) i = some (a.length + i) := by
  induction a with
  | nil => intro i; simp [List.findIdx?_cons, hv]
  | cons x xs ih =>
    intro i
    have hx : p x = false := hn x (List.mem_cons_self x xs)
    have ihx := ih (fun y hy => hn y (List.mem_cons_of_mem x hy)) (i + 1)
    simp only [List.cons_append, List.findIdx?_cons, hx, Bool.false_eq_true, if_false, ihx,
      List.length_cons]
    congr 1
    omega

theorem exists_last_split {α : Type} (p : α → Bool) (l : List α)
    (h : ∃ x ∈ l, p x = true) :
    ∃ l₁ v l₂, l = l₁ ++ v :: l₂ ∧ p v = true ∧ ∀ x ∈ l₂, p x = false := by
  induction l with
  | nil => simp at h
  | cons a t ih =>
    by_cases ht : ∃ x ∈ t, p x = true
    · obtain ⟨l₁, v, l₂, heq, hv, hl₂⟩ := ih ht
      exact ⟨a :: l₁, v, l₂, by rw [heq]; rfl, hv, hl₂⟩
    · have ha : p a = true := by
        obtain ⟨x, hx, hpx⟩ := h
        rcases List.mem_cons.mp hx with rfl | hxt
        · exact hpx
        · exact absurd ⟨x, hxt, hpx⟩ ht
      refine ⟨[], a, t, rfl, ha, fun x hx => ?_⟩
      by_contra hpx
      exact ht ⟨x, hx, by simpa using hpx⟩

theorem exists_first_split {α : Type} (p : α → Bool) (l : List α)
    (h : ∃ x ∈ l, p x = true) :
    ∃ l₁ v l₂, l = l₁ ++ v :: l₂ ∧ p v = true ∧ ∀ x ∈ l₁, p x = false := by
  induction l with
  | nil => simp at h
  | cons a t ih =>
    by_cases ha : p a = true
    · exact ⟨[], a, t, rfl, ha, by simp⟩
    · have ht : ∃ x ∈ t, p x = true := by
        obtain ⟨x, hx, hpx⟩ := h
        rcases List.mem_cons.mp hx with rfl | hxt
        · exact absurd hpx ha
        · exact ⟨x, hxt, hpx⟩
      obtain ⟨l₁, v, l₂, heq, hv, hl₁⟩ := ih ht
      refine ⟨a :: l₁, v, l₂, by rw [heq]; rfl, hv, fun x hx => ?_⟩
      rcases List.mem_cons.mp hx with rfl | hxl
      · simpa using ha
      · exact hl₁ x hxl

theorem countP_lt_of_mem {α : Type} (p q : α → Bool) (l : List α)
    (hpq : ∀ x ∈ l, p x = true → q x = true)
    (a : α) (ha : a ∈ l) (hqa : q a = true) (hpa : p a = false) :
    l.countP p < l.countP q := by
  induction l with
  | nil => simp at ha
  | cons x xs ih =>
    have hstep : xs.countP p ≤ xs.countP q :=
      List.countP_mono_left fun y hy => hpq y (List.mem_cons_of_mem _ hy)
    rcases List.mem_cons.mp ha with rfl | hxs
    · simp [List.countP_cons, hpa, hqa]
      omega
    · have hlt := ih (fun y hy => hpq y (List.mem_cons_of_mem _ hy)) hxs
      by_cases hpx : p x = true
      · have hqx : q x = true := hpq x (List.mem_cons_self x xs) hpx
        simp [List.countP_cons, hpx, hqx]
        omega
      · by_cases hqx : q x = true <;> simp [List.countP_cons, hpx, hqx] <;> omega

/-! ### Characterization of the VIP insertion algorithm -/

theorem vipInsert_of_last_vip (new : Order) (l₁ : List Order) (v : Order) (l₂ : List Order)
    (hv : isPendingVIP v = true) (h₂ : ∀ x ∈ l₂, isPendingVIP x = false) :
    vipInsert new (l₁ ++ v :: l₂) = l₁ ++ v :: new :: l₂ := by
  have hfind : List.findIdx? isPendingVIP (l₁ ++ v :: l₂).reverse 0 = some l₂.length := by
    have hrev : (l₁ ++ v :: l₂).reverse = l₂.reverse ++ v :: l₁.reverse := by
      simp
    rw [hrev]
    have := findIdx?_append_cons isPendingVIP l₂.reverse v l₁.reverse
      (fun x hx => h₂ x (List.mem_reverse.mp hx)) hv 0
    simpa using this
  have hlen : (l₁ ++ v :: l₂).length - l₂.length = (l₁ ++ [v]).length := by
    simp; omega
  have hsplit : l₁ ++ v :: l₂ = (l₁ ++ [v]) ++ l₂ := by simp
  unfold vipInsert
  simp only [hfind]
  rw [hlen, hsplit, List.take_left, List.drop_left]
  simp

theorem vipInsert_of_first_normal (new : Order) (l₁ : List Order) (n : Order) (l₂ : List Order)
    (hnov : ∀ x ∈ l₁ ++ n :: l₂, isPendingVIP x = false)
    (hn : isPendingNormal n = true) (h₁ : ∀ x ∈ l₁, isPendingNormal x = false) :
    vipInsert new (l₁ ++ n :: l₂) = l₁ ++ new :: n :: l₂ := by
  have hnone : List.findIdx? isPendingVIP (l₁ ++ n :: l₂).reverse 0 = none := by
    rw [List.findIdx?_eq_none_iff]
    exact fun x hx => hnov x (List.mem_reverse.mp hx)
  have hfind : List.findIdx? isPendingNormal (l₁ ++ n :: l₂) 0 = some l₁.length := by
    have := findIdx?_append_cons isPendingNormal l₁ n l₂ h₁ hn 0
    simpa using this
  unfold vipInsert
  simp only [hnone, hfind]
  rw [List.take_left, List.drop_left]

theorem vipInsert_of_no_pending (new : Order) (l : List Order)
    (h1 : ∀ x ∈ l, isPendingVIP x = false) (h2 : ∀ x ∈ l, isPendingNormal x = false) :
    vipInsert new l = l ++ [new] := by
  have hnone : List.findIdx? isPendingVIP l.reverse 0 = none := by
    rw [List.findIdx?_eq_none_iff]
    exact fun x hx => h1 x (List.mem_reverse.mp hx)
  have hnone' : List.findIdx? isPendingNormal l 0 = none := by
    rw [List.findIdx?_eq_none_iff]
    exact h2
  unfold vipInsert
  simp only [hnone, hnone']

theorem vipInsert_perm (new : Order) (l : List Order) :
    (vipInsert new l).Perm (new :: l) := by
  unfold vipInsert
  rcases hfind : List.findIdx? isPendingVIP l.reverse 0 with _ | r
  · rcases hfind' : List.findIdx? isPendingNormal l 0 with _ | i
    · exact List.perm_append_singleton new l
    · have h := @List.perm_middle _ new (List.take i l) (List.drop i l)
      rwa [List.take_append_drop] at h
  · have h := @List.perm_middle _ new (List.take (l.length - r) l)
      (List.drop (l.length - r) l)
    rwa [List.take_append_drop] at h

/-! ### The PENDING subsequence under priority insertion -/

theorem pairwise_of_all {α : Type} {R : α → α → Prop} {l : List α}
    (h : ∀ a ∈ l, ∀ b ∈ l, R a b) : l.Pairwise R := by
  induction l with
  | nil => exact List.Pairwise.nil
  | cons a t ih =>
    refine List.pairwise_cons.mpr ⟨fun b hb => h a (by simp) b (by simp [hb]), ?_⟩
    exact ih fun x hx y hy => h x (by simp [hx]) y (by simp [hy])

theorem filter_vip_append_not (l : List Order) (h : l.Pairwise VIPbefore) :
    l.filter (fun o => o.isVIP) ++ l.filter (fun o => !o.isVIP) = l := by
  induction l with
  | nil => simp
  | cons a t ih =>
    obtain ⟨ha, ht⟩ := List.pairwise_cons.mp h
    by_cases hv : a.isVIP = true
    · simp [List.filter_cons, hv, ih ht]
    · have hall : ∀ b ∈ t, b.isVIP = false := by
        intro b hb
        by_contra h'
        exact hv (ha b hb (by simpa using h'))
      have hfv : t.filter (fun o => o.isVIP) = [] :=
        List.filter_eq_nil_iff.mpr fun b hb => by simp [hall b hb]
      have hfv' : (a :: t).filter (fun o => o.isVIP) = [] :=
        List.filter_eq_nil_iff.mpr fun b hb => by
          rcases List.mem_cons.mp hb with rfl | hbt
          · simp [hv]
          · simp [hall b hbt]
      have hfn : t.filter (fun o => !o.isVIP) = t :=
        List.filter_eq_self.mpr fun b hb => by simp [hall b hb]
      simp [hfv', List.filter_cons, hv, hfn]

theorem filter_pendVIP_eq (l : List Order) :
    l.filter isPendingVIP = (l.filter Order.isPending).filter fun o => o.isVIP := by
  rw [List.filter_filter]
  exact (List.filter_congr fun x _ => by
    simp [isPendingVIP, Order.isPending, Bool.and_comm]).symm

theorem filter_pendNormal_eq (l : List Order) :
    l.filter isPendingNormal = (l.filter Order.isPending).filter fun o => !o.isVIP := by
  rw [List.filter_filter]
  exact (List.filter_congr fun x _ => by
    simp [isPendingNormal, Order.isPending, Bool.and_comm]).symm

/-- Under the queue-ordering invariant, the PENDING subsequence is the
pending VIPs followed by the pending NORMALs. -/
theorem pend_split (l : List Order) (h : PendingOrdered l) :
    l.filter Order.isPending = l.filter isPendingVIP ++ l.filter isPendingNormal := by
  rw [filter_pendVIP_eq, filter_pendNormal_eq, filter_vip_append_not _ h]

theorem fp_eq_fnorm_of_no_vip (l : List Order)
    (h : ∀ x ∈ l, isPendingVIP x = false) :
    l.filter Order.isPending = l.filter isPendingNormal := by
  refine List.filter_congr fun x hx => ?_
  have hx' := h x hx
  simp only [Order.isPending, isPendingNormal, isPendingVIP] at *
  cases hv : x.isVIP
  · simp [hv]
  · simp [hv] at hx'
    simp [hv, hx']

theorem fp_eq_fvip_of_all_vip (l : List Order)
    (h : ∀ x ∈ l, x.isPending = true → x.isVIP = true) :
    l.filter Order.isPending = l.filter isPendingVIP := by
  refine List.filter_congr fun x hx => ?_
  by_cases hp : x.isPending = true
  · have hv := h x hx hp
    simp only [Order.isPending, isPendingVIP] at *
    simp [hv, hp]
  · have hp' : x.isPending = false := by simpa using hp
    simp only [Order.isPending, isPendingVIP] at *
    simp [hp']

/-- Shape of the PENDING subsequence after the VIP insertion
algorithm: the previously pending VIPs, then the new order, then the
previously pending NORMALs. -/
theorem filter_pending_vipInsert (new : Order) (l : List Order)
    (hnew : isPendingVIP new = true) (h : PendingOrdered l) :
    (vipInsert new l).filter Order.isPending =
      l.filter isPendingVIP ++ new :: l.filter isPendingNormal := by
  have hnewv : new.isVIP = true := (isPendingVIP_iff.mp hnew).1
  have hnewp : new.isPending = true := isPending_iff.mpr (isPendingVIP_iff.mp hnew).2
  by_cases hex : ∃ x ∈ l, isPendingVIP x = true
  · obtain ⟨l₁, v, l₂, rfl, hv, h₂⟩ := exists_last_split _ _ hex
    have hvv : v.isVIP = true := (isPendingVIP_iff.mp hv).1
    have hvp : v.isPending = true := isPending_iff.mpr (isPendingVIP_iff.mp hv).2
    have hl₁ : ∀ x ∈ l₁, x.isPending = true → x.isVIP = true := by
      intro x hx hpx
      have h' := h
      unfold PendingOrdered at h'
      rw [List.filter_append] at h'
      have hx' : x ∈ l₁.filter Order.isPending := List.mem_filter.mpr ⟨hx, hpx⟩
      have hv' : v ∈ (v :: l₂).filter Order.isPending := by
        rw [List.filter_cons]
        simp [hvp]
      exact (List.pairwise_append.mp h').2.2 x hx' v hv' hvv
    rw [vipInsert_of_last_vip new l₁ v l₂ hv h₂]
    have e1 : (l₁ ++ v :: new :: l₂).filter Order.isPending
        = l₁.filter Order.isPending ++ v :: new :: l₂.filter Order.isPending := by
      simp [List.filter_append, List.filter_cons, hvp, hnewp]
    have hfv₂ : l₂.filter isPendingVIP = [] :=
      List.filter_eq_nil_iff.mpr fun x hx => by simp [h₂ x hx]
    have e2 : (l₁ ++ v :: l₂).filter isPendingVIP = l₁.filter isPendingVIP ++ [v] := by
      simp [List.filter_append, List.filter_cons, hv, hfv₂]
    have hvn : isPendingNormal v = false := by
      simp [isPendingNormal, hvv]
    have hl₁n : l₁.filter isPendingNormal = [] := by
      refine List.filter_eq_nil_iff.mpr fun x hx => ?_
      intro hxn
      rcases isPendingNormal_iff.mp hxn with ⟨hxv, hxs⟩
      have := hl₁ x hx (isPending_iff.mpr hxs)
      rw [this] at hxv
      cases hxv
    have e3 : (l₁ ++ v :: l₂).filter isPendingNormal = l₂.filter isPendingNormal := by
      simp [List.filter_append, List.filter_cons, hvn, hl₁n]
    rw [e1, e2, e3, fp_eq_fvip_of_all_vip l₁ hl₁, fp_eq_fnorm_of_no_vip l₂ h₂]
    simp
  · have hno : ∀ x ∈ l, isPendingVIP x = false := by
      intro x hx
      by_contra h'
      exact hex ⟨x, hx, by simpa using h'⟩
    have hfv : l.filter isPendingVIP = [] :=
      List.filter_eq_nil_iff.mpr fun x hx => by simp [hno x hx]
    by_cases hex2 : ∃ x ∈ l, isPendingNormal x = true
    · obtain ⟨l₁, n, l₂, rfl, hn, h₁⟩ := exists_first_split _ _ hex2
      have hnp : n.isPending = true := isPending_iff.mpr (isPendingNormal_iff.mp hn).2
      rw [vipInsert_of_first_normal new l₁ n l₂ hno hn h₁]
      have hfp₁ : l₁.filter Order.isPending = [] := by
        refine List.filter_eq_nil_iff.mpr fun x hx => ?_
        intro hpx
        rcases pending_cases hpx with hxv | hxn
        · have := hno x (by simp [hx])
          rw [this] at hxv
          cases hxv
        · have := h₁ x hx
          rw [this] at hxn
          cases hxn
      have hfn₁ : l₁.filter isPendingNormal = [] :=
        List.filter_eq_nil_iff.mpr fun x hx => by simp [h₁ x hx]
      have e1 : (l₁ ++ new :: n :: l₂).filter Order.isPending
          = new :: n :: l₂.filter Order.isPending := by
        simp [List.filter_append, hfp₁, List.filter_cons, hnewp, hnp]
      have e3 : (l₁ ++ n :: l₂).filter isPendingNormal
          = n :: l₂.filter isPendingNormal := by
        simp [List.filter_append, hfn₁, List.filter_cons, hn]
      have h₂' : ∀ x ∈ l₂, isPendingVIP x = false := fun x hx =>
        hno x (by simp [hx])
      rw [e1, hfv, e3, fp_eq_fnorm_of_no_vip l₂ h₂']
      simp
    · have hno2 : ∀ x ∈ l, isPendingNormal x = false := by
        intro x hx
        by_contra h'
        exact hex2 ⟨x, hx, by simpa using h'⟩
      have hfn : l.filter isPendingNormal = [] :=
        List.filter_eq_nil_iff.mpr fun x hx => by simp [hno2 x hx]
      have hfp : l.filter Order.isPending = [] := by
        refine List.filter_eq_nil_iff.mpr fun x hx => ?_
        intro hpx
        rcases pending_cases hpx with hxv | hxn
        · have := hno x hx
          rw [this] at hxv
          cases hxv
        · have := hno2 x hx
          rw [this] at hxn
          cases hxn
      rw [vipInsert_of_no_pending new l hno hno2]
      simp [List.filter_append, hfp, hfv, hfn, List.filter_cons, hnewp]

/-- The queue-ordering invariant is preserved by the VIP insertion
algorithm. -/
theorem PendingOrdered_vipInsert (new : Order) (l : List Order)
    (hnew : isPendingVIP new = true) (h : PendingOrdered l) :
    PendingOrdered (vipInsert new l) := by
  have hnewv : new.isVIP = true := (isPendingVIP_iff.mp hnew).1
  unfold PendingOrdered
  rw [filter_pending_vipInsert new l hnew h]
  refine List.pairwise_append.mpr ⟨?_, ?_, ?_⟩
  · refine pairwise_of_all fun a ha b hb => ?_
    intro _
    exact (isPendingVIP_iff.mp (List.mem_filter.mp ha).2).1
  · refine List.pairwise_cons.mpr ⟨fun b hb => fun _ => hnewv, ?_⟩
    refine pairwise_of_all fun a ha b hb => ?_
    intro hb'
    have := (isPendingNormal_iff.mp (List.mem_filter.mp hb).2).1
    rw [this] at hb'
    cases hb'
  · intro a ha b hb
    intro _
    exact (isPendingVIP_iff.mp (List.mem_filter.mp ha).2).1

/-- The queue-ordering invariant is preserved by appending a NORMAL
order at the tail. -/
theorem PendingOrdered_append_normal (l : List Order) (new : Order)
    (hn : new.isVIP = false) (h : PendingOrdered l) :
    PendingOrdered (l ++ [new]) := by
  unfold PendingOrdered
  rw [List.filter_append]
  refine List.pairwise_append.mpr ⟨h, ?_, ?_⟩
  · refine pairwise_of_all fun a ha b hb => ?_
    have ha' : a = new := by
      have := (List.mem_filter.mp ha).1
      simpa using this
    have hb' : b = new := by
      have := (List.mem_filter.mp hb).1
      simpa using this
    subst ha'
    subst hb'
    exact id
  · intro a ha b hb
    have hb' : b = new := by
      have := (List.mem_filter.mp hb).1
      simpa using this
    subst hb'
    intro h'
    rw [hn] at h'
    cases h'

/-! ### Frame lemmas for the per-element updaters -/

theorem filter_map_eq_of_pres (f : Order → Order) (q : Order → Bool)
    (hq : ∀ o, q (f o) = q o) (l : List Order) :
    (l.map f).filter q = (l.filter q).map f := by
  rw [List.filter_map]
  congr 1
  exact List.filter_congr fun x _ => hq x

theorem filter_map_sublist_of_guard (f : Order → Order) (q : Order → Bool)
    (hq : ∀ o, q (f o) = true → f o = o) (l : List Order) :
    ((l.map f).filter q).Sublist (l.filter q) := by
  rw [List.filter_map]
  have h1 : (l.filter (q ∘ f)).map f = l.filter (q ∘ f) := by
    have hmem : ∀ x ∈ l.filter (q ∘ f), f x = x := fun x hx =>
      hq x (List.mem_filter.mp hx).2
    rw [List.map_congr_left hmem]
    simp
  rw [h1]
  refine List.monotone_filter_right l fun a ha => ?_
  have ha' : q (f a) = true := ha
  have hfa := hq a ha'
  rw [hfa] at ha'
  exact ha'

theorem PendingOrdered_map_of_pres (f : Order → Order)
    (hstat : ∀ o, (f o).status = o.status) (hvip : ∀ o, (f o).isVIP = o.isVIP)
    (l : List Order) (h : PendingOrdered l) : PendingOrdered (l.map f) := by
  unfold PendingOrdered at *
  rw [filter_map_eq_of_pres f Order.isPending fun o => by
    simp [Order.isPending, hstat o]]
  refine List.pairwise_map.mpr (h.imp fun hab => ?_)
  intro hb
  rw [hvip] at hb ⊢
  exact hab hb

theorem PendingOrdered_map_of_guard (f : Order → Order)
    (hq : ∀ o, (f o).isPending = true → f o = o)
    (l : List Order) (h : PendingOrdered l) : PendingOrdered (l.map f) :=
  List.Pairwise.sublist (filter_map_sublist_of_guard f Order.isPending hq l) h

theorem PendingOrdered_sublist {l l' : List Order} (hs : l'.Sublist l)
    (h : PendingOrdered l) : PendingOrdered l' :=
  List.Pairwise.sublist (hs.filter Order.isPending) h

theorem markRemoving_id (oid : Nat) (o : Order) : (markRemoving oid o).id = o.id := by
  unfold markRemoving
  split <;> rfl

theorem markRemoving_status (oid : Nat) (o : Order) :
    (markRemoving oid o).status = o.status := by
  unfold markRemoving
  split <;> rfl

theorem markRemoving_isVIP (oid : Nat) (o : Order) :
    (markRemoving oid o).isVIP = o.isVIP := by
  unfold markRemoving
  split <;> rfl

theorem markRemoving_botId (oid : Nat) (o : Order) :
    (markRemoving oid o).botId = o.botId := by
  unfold markRemoving
  split <;> rfl

theorem tickUpd_id (now : Nat) (o : Order) : (tickUpd now o).id = o.id := by
  unfold tickUpd
  split <;> rfl

theorem tickUpd_status (now : Nat) (o : Order) : (tickUpd now o).status = o.status := by
  unfold tickUpd
  split <;> rfl

theorem tickUpd_isVIP (now : Nat) (o : Order) : (tickUpd now o).isVIP = o.isVIP := by
  unfold tickUpd
  split <;> rfl

theorem tickUpd_botId (now : Nat) (o : Order) : (tickUpd now o).botId = o.botId := by
  unfold tickUpd
  split <;> rfl

theorem animUpd_id (o : Order) : (animUpd o).id = o.id := by
  unfold animUpd
  split <;> rfl

theorem animUpd_status (o : Order) : (animUpd o).status = o.status := by
  unfold animUpd
  split <;> rfl

theorem animUpd_isVIP (o : Order) : (animUpd o).isVIP = o.isVIP := by
  unfold animUpd
  split <;> rfl

theorem animUpd_botId (o : Order) : (animUpd o).botId = o.botId := by
  unfold animUpd
  split <;> rfl

theorem idleBotUpd_id (bid : Nat) (b : Bot) : (idleBotUpd bid b).id = b.id := by
  unfold idleBotUpd
  split <;> rfl

theorem idleBotUpd_busy_eq (bid : Nat) (b : Bot)
    (h : (idleBotUpd bid b).status = .processing) : idleBotUpd bid b = b := by
  unfold idleBotUpd at *
  by_cases hb : (b.id == bid) = true
  · rw [if_pos hb] at h
    cases h
  · rw [if_neg hb]

theorem assignBotUpd_id (bid oid : Nat) (b : Bot) : (assignBotUpd bid oid b).id = b.id := by
  unfold assignBotUpd
  split <;> rfl

theorem assignOrderUpd_id (oid bid now : Nat) (o : Order) :
    (assignOrderUpd oid bid now o).id = o.id := by
  unfold assignOrderUpd
  split <;> rfl

theorem assignOrderUpd_pending_eq (oid bid now : Nat) (o : Order)
    (h : (assignOrderUpd oid bid now o).isPending = true) :
    assignOrderUpd oid bid now o = o := by
  unfold assignOrderUpd at *
  by_cases ho : (o.id == oid) = true
  · rw [if_pos ho] at h
    rw [isPending_iff] at h
    cases h
  · rw [if_neg ho]

theorem completeOrderUpd_id (oid bid : Nat) (o : Order) :
    (completeOrderUpd oid bid o).id = o.id := by
  unfold completeOrderUpd
  split <;> rfl

theorem completeOrderUpd_pending_eq (oid bid : Nat) (o : Order)
    (h : (completeOrderUpd oid bid o).isPending = true) :
    completeOrderUpd oid bid o = o := by
  unfold completeOrderUpd at *
  by_cases ho : (o.id == oid && o.status == OrderStatus.processing &&
      o.botId == some bid) = true
  · rw [if_pos ho] at h
    rw [isPending_iff] at h
    cases h
  · rw [if_neg ho]

/-! ### Preservation of the invariant -/

theorem mem_vipInsert {x new : Order} {l : List Order} :
    x ∈ vipInsert new l ↔ x = new ∨ x ∈ l := by
  rw [(vipInsert_perm new l).mem_iff]
  exact List.mem_cons

theorem find?_id_facts {l : List Order} {oid : Nat} {o : Order}
    (h : l.find? (fun o => o.id == oid) = some o) : o ∈ l ∧ o.id = oid := by
  refine ⟨List.mem_of_find?_eq_some h, ?_⟩
  have := List.find?_some h
  simpa using this

theorem returnedOrderOf_id (o : Order) : (returnedOrderOf o).id = o.id := rfl

theorem returnedOrderOf_isVIP (o : Order) : (returnedOrderOf o).isVIP = o.isVIP := rfl

theorem pairwise_RBusy_map_idleBotUpd (bid : Nat) (l : List Bot)
    (h : l.Pairwise RBusy) : (l.map (idleBotUpd bid)).Pairwise RBusy := by
  refine List.pairwise_map.mpr (h.imp fun hab => ?_)
  intro hx hy
  have ex := idleBotUpd_busy_eq bid _ hx
  have ey := idleBotUpd_busy_eq bid _ hy
  rw [ex] at hx ⊢
  rw [ey] at hy ⊢
  exact hab hx hy

/-! ### Branch equations for the operations -/

theorem cancelOrder_eq_none (oid : Nat) (s : SysState)
    (hfind : s.orders.find? (fun o => o.id == oid) = none) :
    cancelOrder oid s = s := by
  unfold cancelOrder
  simp only [hfind]

theorem cancelOrder_eq_busy (oid : Nat) (s : SysState) (o : Order) (bid : Nat)
    (hfind : s.orders.find? (fun x => x.id == oid) = some o)
    (hst : o.status = OrderStatus.processing) (hb : o.botId = some bid) :
    cancelOrder oid s =
      { s with
        orders := s.orders.map (markRemoving oid)
        bots := s.bots.map (idleBotUpd bid)
        timeouts := clearTimeoutKey (bid, oid) s.timeouts
        removals := oid :: s.removals } := by
  have hst' : (o.status == OrderStatus.processing) = true := by simp [hst]
  unfold cancelOrder
  simp only [hfind, hst', hb]

theorem cancelOrder_eq_mark (oid : Nat) (s : SysState) (o : Order)
    (hfind : s.orders.find? (fun x => x.id == oid) = some o)
    (hnot : o.status ≠ OrderStatus.processing ∨ o.botId = none) :
    cancelOrder oid s =
      { s with
        orders := s.orders.map (markRemoving oid)
        removals := oid :: s.removals } := by
  unfold cancelOrder
  rcases hnot with hns | hbn
  · have hst' : (o.status == OrderStatus.processing) = false := by simp [hns]
    simp only [hfind, hst']
  · cases hst' : o.status == OrderStatus.processing <;> simp only [hfind, hst', hbn]

theorem removeBot_eq_empty (s : SysState) (h : s.bots.getLast? = none) :
    removeBot s = s := by
  unfold removeBot
  simp only [h]

theorem removeBot_eq_notbusy (s : SysState) (b : Bot)
    (hlast : s.bots.getLast? = some b)
    (hnot : b.status ≠ BotStatus.processing ∨ b.processingOrderId = none) :
    removeBot s = { s with bots := s.bots.dropLast } := by
  unfold removeBot
  rcases hnot with hns | hpo
  · have hst' : (b.status == BotStatus.processing) = false := by simp [hns]
    simp only [hlast, hst']
  · cases hst' : b.status == BotStatus.processing <;> simp only [hlast, hst', hpo]

theorem removeBot_eq_missing (s : SysState) (b : Bot) (oid : Nat)
    (hlast : s.bots.getLast? = some b)
    (hst : b.status = BotStatus.processing) (hpo : b.processingOrderId = some oid)
    (hfind : s.orders.find? (fun o => o.id == oid) = none) :
    removeBot s =
      { s with
        timeouts := clearTimeoutKey (b.id, oid) s.timeouts
        bots := s.bots.dropLast } := by
  have hst' : (b.status == BotStatus.processing) = true := by simp [hst]
  unfold removeBot
  simp only [hlast, hst', hpo, hfind]

theorem removeBot_eq_found (s : SysState) (b : Bot) (oid : Nat) (orderToReturn : Order)
    (hlast : s.bots.getLast? = some b)
    (hst : b.status = BotStatus.processing) (hpo : b.processingOrderId = some oid)
    (hfind : s.orders.find? (fun o => o.id == oid) = some orderToReturn) :
    removeBot s =
      { s with
        orders :=
          if (returnedOrderOf orderToReturn).isVIP then
            vipInsert (returnedOrderOf orderToReturn)
              (s.orders.filter fun o => !(o.id == oid))
          else
            (s.orders.filter fun o => !(o.id == oid)) ++ [returnedOrderOf orderToReturn]
        timeouts := clearTimeoutKey (b.id, oid) s.timeouts
        bots := s.bots.dropLast } := by
  have hst' : (b.status == BotStatus.processing) = true := by simp [hst]
  unfold removeBot
  simp only [hlast, hst', hpo, hfind]

theorem handleOrderComplete_valid (botId orderId : Nat) (s : SysState)
    (h : validPairing s botId orderId = true) :
    handleOrderComplete botId orderId s =
      { s with
        orders := s.orders.map (completeOrderUpd orderId botId)
        bots := s.bots.map (idleBotUpd botId)
        timeouts := clearTimeoutKey (botId, orderId) s.timeouts } := by
  unfold handleOrderComplete
  simp only [h, if_true]

theorem handleOrderComplete_invalid (botId orderId : Nat) (s : SysState)
    (h : validPairing s botId orderId = false) :
    handleOrderComplete botId orderId s =
      { s with timeouts := clearTimeoutKey (botId, orderId) s.timeouts } := by
  unfold handleOrderComplete
  simp only [h, if_false, Bool.false_eq_true]

theorem timerFire_eq_mem (botId orderId : Nat) (s : SysState)
    (h : (botId, orderId) ∈ s.timeouts) :
    timerFire botId orderId s = handleOrderComplete botId orderId s := by
  unfold timerFire
  rw [if_pos h]

theorem timerFire_eq_not_mem (botId orderId : Nat) (s : SysState)
    (h : (botId, orderId) ∉ s.timeouts) :
    timerFire botId orderId s = s := by
  unfold timerFire
  rw [if_neg h]

theorem matchPass_eq_assign (now : Nat) (s : SysState) (b : Bot) (bs : List Bot)
    (o : Order) (os : List Order)
    (hidle : s.bots.filter Bot.isIdle = b :: bs)
    (hpr : prioritizedOf s = o :: os) :
    matchPass now s = assignOrderToBot b o now s := by
  unfold matchPass
  simp only [hidle, hpr]

theorem matchPass_eq_id_noidle (now : Nat) (s : SysState)
    (hidle : s.bots.filter Bot.isIdle = []) : matchPass now s = s := by
  unfold matchPass
  simp only [hidle]

theorem matchPass_eq_id_nopr (now : Nat) (s : SysState)
    (hpr : prioritizedOf s = []) : matchPass now s = s := by
  unfold matchPass
  cases hidle : s.bots.filter Bot.isIdle <;> simp only [hidle, hpr]

theorem inv_addNormalOrder (s : SysState) (h : Inv s) : Inv (addNormalOrder s) := by
  obtain ⟨h1, h2, h3, h4, h5, h6, h7⟩ := h
  refine ⟨h1, h2, ?_, ?_, ?_, ?_, h7⟩
  · refine List.pairwise_append.mpr ⟨h3, List.pairwise_singleton _ _, ?_⟩
    intro a ha b hb
    have hb' : b = newNormalOrder s.nextOrderId := by simpa using hb
    subst hb'
    have := h4 a ha
    show a.id ≠ s.nextOrderId
    omega
  · intro o ho
    rcases List.mem_append.mp ho with ho' | ho'
    · have := h4 o ho'
      show o.id < s.nextOrderId + 1
      omega
    · have ho'' : o = newNormalOrder s.nextOrderId := by simpa using ho'
      subst ho''
      show s.nextOrderId < s.nextOrderId + 1
      omega
  · exact PendingOrdered_append_normal _ _ rfl h5
  · intro b hb hbusy
    obtain ⟨oid, hpo, hlt, hord⟩ := h6 b hb hbusy
    refine ⟨oid, hpo, by show oid < s.nextOrderId + 1; omega, ?_⟩
    intro o ho hoid
    rcases List.mem_append.mp ho with ho' | ho'
    · exact hord o ho' hoid
    · have ho'' : o = newNormalOrder s.nextOrderId := by simpa using ho'
      subst ho''
      have : s.nextOrderId = oid := hoid
      omega

theorem inv_addVIPOrder (s : SysState) (h : Inv s) : Inv (addVIPOrder s) := by
  obtain ⟨h1, h2, h3, h4, h5, h6, h7⟩ := h
  refine ⟨h1, h2, ?_, ?_, ?_, ?_, h7⟩
  · have hcons : (newVIPOrder s.nextOrderId :: s.orders).Pairwise
        (fun a b => a.id ≠ b.id) := by
      refine List.pairwise_cons.mpr ⟨?_, h3⟩
      intro b hb
      have := h4 b hb
      show s.nextOrderId ≠ b.id
      omega
    exact hcons.perm (vipInsert_perm _ _).symm fun hxy => Ne.symm hxy
  · intro o ho
    rcases mem_vipInsert.mp ho with ho' | ho'
    · subst ho'
      show s.nextOrderId < s.nextOrderId + 1
      omega
    · have := h4 o ho'
      show o.id < s.nextOrderId + 1
      omega
  · exact PendingOrdered_vipInsert _ _ rfl h5
  · intro b hb hbusy
    obtain ⟨oid, hpo, hlt, hord⟩ := h6 b hb hbusy
    refine ⟨oid, hpo, by show oid < s.nextOrderId + 1; omega, ?_⟩
    intro o ho hoid
    rcases mem_vipInsert.mp ho with ho' | ho'
    · subst ho'
      have : s.nextOrderId = oid := hoid
      omega
    · exact hord o ho' hoid

theorem inv_progressTick (now : Nat) (s : SysState) (h : Inv s) :
    Inv (progressTick now s) := by
  obtain ⟨h1, h2, h3, h4, h5, h6, h7⟩ := h
  refine ⟨h1, h2, ?_, ?_, ?_, ?_, h7⟩
  · refine List.pairwise_map.mpr (h3.imp fun hab => ?_)
    rw [tickUpd_id, tickUpd_id]
    exact hab
  · intro o ho
    obtain ⟨z, hz, rfl⟩ := List.mem_map.mp ho
    rw [tickUpd_id]
    exact h4 z hz
  · exact PendingOrdered_map_of_pres _ (tickUpd_status now) (tickUpd_isVIP now) _ h5
  · intro b hb hbusy
    obtain ⟨oid, hpo, hlt, hord⟩ := h6 b hb hbusy
    refine ⟨oid, hpo, hlt, ?_⟩
    intro o ho hoid
    obtain ⟨z, hz, rfl⟩ := List.mem_map.mp ho
    rw [tickUpd_id] at hoid
    have := hord z hz hoid
    rw [tickUpd_status, tickUpd_botId]
    exact this

theorem inv_animClear (s : SysState) (h : Inv s) : Inv (animClear s) := by
  obtain ⟨h1, h2, h3, h4, h5, h6, h7⟩ := h
  refine ⟨h1, h2, ?_, ?_, ?_, ?_, h7⟩
  · refine List.pairwise_map.mpr (h3.imp fun hab => ?_)
    rw [animUpd_id, animUpd_id]
    exact hab
  · intro o ho
    obtain ⟨z, hz, rfl⟩ := List.mem_map.mp ho
    rw [animUpd_id]
    exact h4 z hz
  · exact PendingOrdered_map_of_pres _ animUpd_status animUpd_isVIP _ h5
  · intro b hb hbusy
    obtain ⟨oid, hpo, hlt, hord⟩ := h6 b hb hbusy
    refine ⟨oid, hpo, hlt, ?_⟩
    intro o ho hoid
    obtain ⟨z, hz, rfl⟩ := List.mem_map.mp ho
    rw [animUpd_id] at hoid
    have := hord z hz hoid
    rw [animUpd_status, animUpd_botId]
    exact this

theorem inv_removalFire (oid : Nat) (s : SysState) (h : Inv s) :
    Inv (removalFire oid s) := by
  unfold removalFire
  by_cases hmem : oid ∈ s.removals
  · rw [if_pos hmem]
    obtain ⟨h1, h2, h3, h4, h5, h6, h7⟩ := h
    refine ⟨h1, h2, ?_, ?_, ?_, ?_, h7⟩
    · exact List.Pairwise.sublist (List.filter_sublist _) h3
    · intro o ho
      exact h4 o ((List.filter_sublist _).mem ho)
    · exact PendingOrdered_sublist (List.filter_sublist _) h5
    · intro b hb hbusy
      obtain ⟨oid', hpo, hlt, hord⟩ := h6 b hb hbusy
      exact ⟨oid', hpo, hlt, fun o ho hoid =>
        hord o ((List.filter_sublist _).mem ho) hoid⟩
  · rw [if_neg hmem]
    exact h

theorem inv_addBot (s : SysState) (h : Inv s) : Inv (addBot s) := by
  obtain ⟨h1, h2, h3, h4, h5, h6, h7⟩ := h
  refine ⟨?_, ?_, h3, h4, h5, ?_, ?_⟩
  · refine List.pairwise_append.mpr ⟨h1, List.pairwise_singleton _ _, ?_⟩
    intro a ha b hb
    have hb' : b = (⟨s.nextBotId, .idle, none⟩ : Bot) := by simpa using hb
    subst hb'
    exact h2 a ha
  · intro b hb
    rcases List.mem_append.mp hb with hb' | hb'
    · have := h2 b hb'
      show b.id < s.nextBotId + 1
      omega
    · have hb'' : b = (⟨s.nextBotId, .idle, none⟩ : Bot) := by simpa using hb'
      subst hb''
      show s.nextBotId < s.nextBotId + 1
      omega
  · intro b hb hbusy
    rcases List.mem_append.mp hb with hb' | hb'
    · exact h6 b hb' hbusy
    · have hb'' : b = (⟨s.nextBotId, .idle, none⟩ : Bot) := by simpa using hb'
      subst hb''
      cases hbusy
  · refine List.pairwise_append.mpr ⟨h7, List.pairwise_singleton _ _, ?_⟩
    intro a ha b hb
    have hb' : b = (⟨s.nextBotId, .idle, none⟩ : Bot) := by simpa using hb
    subst hb'
    intro _ hbusy
    cases hbusy

theorem inv_of_markRemoving (oid : Nat) (s : SysState) (h : Inv s) :
    Inv { s with
          orders := s.orders.map (markRemoving oid)
          removals := oid :: s.removals } := by
  obtain ⟨h1, h2, h3, h4, h5, h6, h7⟩ := h
  refine ⟨h1, h2, ?_, ?_, ?_, ?_, h7⟩
  · refine List.pairwise_map.mpr (h3.imp fun hab => ?_)
    rw [markRemoving_id, markRemoving_id]
    exact hab
  · intro x hx
    obtain ⟨z, hz, rfl⟩ := List.mem_map.mp hx
    rw [markRemoving_id]
    exact h4 z hz
  · exact PendingOrdered_map_of_pres _ (markRemoving_status oid)
      (markRemoving_isVIP oid) _ h5
  · intro b hb hbusy
    obtain ⟨oid', hpo, hlt, hord⟩ := h6 b hb hbusy
    refine ⟨oid', hpo, hlt, ?_⟩
    intro x hx hxid
    obtain ⟨z, hz, rfl⟩ := List.mem_map.mp hx
    rw [markRemoving_id] at hxid
    have := hord z hz hxid
    rw [markRemoving_status, markRemoving_botId]
    exact this

theorem inv_idle_timeouts (bid : Nat) (ts' : List (Nat × Nat)) (s : SysState)
    (h : Inv s) :
    Inv { s with bots := s.bots.map (idleBotUpd bid), timeouts := ts' } := by
  obtain ⟨h1, h2, h3, h4, h5, h6, h7⟩ := h
  refine ⟨?_, ?_, h3, h4, h5, ?_, ?_⟩
  · refine List.pairwise_map.mpr (h1.imp fun hab => ?_)
    rw [idleBotUpd_id, idleBotUpd_id]
    exact hab
  · intro b hb
    obtain ⟨y, hy, rfl⟩ := List.mem_map.mp hb
    rw [idleBotUpd_id]
    exact h2 y hy
  · intro b hb hbusy
    obtain ⟨y, hy, rfl⟩ := List.mem_map.mp hb
    have hy' := idleBotUpd_busy_eq bid y hbusy
    rw [hy'] at hbusy ⊢
    exact h6 y hy hbusy
  · exact pairwise_RBusy_map_idleBotUpd bid _ h7

theorem inv_cancelOrder (oid : Nat) (s : SysState) (h : Inv s) :
    Inv (cancelOrder oid s) := by
  rcases hfind : s.orders.find? (fun o => o.id == oid) with _ | o
  · rw [cancelOrder_eq_none oid s hfind]
    exact h
  · by_cases hst : o.status = OrderStatus.processing
    · rcases hbot : o.botId with _ | bid
      · rw [cancelOrder_eq_mark oid s o hfind (Or.inr hbot)]
        exact inv_of_markRemoving oid s h
      · rw [cancelOrder_eq_busy oid s o bid hfind hst hbot]
        exact inv_of_markRemoving oid _ (inv_idle_timeouts bid _ s h)
    · rw [cancelOrder_eq_mark oid s o hfind (Or.inl hst)]
      exact inv_of_markRemoving oid s h

/-- Core of the reinsertion branch of `removeBot`: removing the last
bot (busy with an order that is still present) and reinserting the
returned order keeps the invariant. -/
theorem inv_reinsert_core (s : SysState) (bs : List Bot) (b : Bot) (oid : Nat)
    (orderToReturn : Order) (hInv : Inv s) (hbs : s.bots = bs ++ [b])
    (hbusy : b.status = BotStatus.processing) (hpo : b.processingOrderId = some oid)
    (hfind : s.orders.find? (fun o => o.id == oid) = some orderToReturn)
    (ts' : List (Nat × Nat)) :
    Inv { orders :=
            if (returnedOrderOf orderToReturn).isVIP then
              vipInsert (returnedOrderOf orderToReturn)
                (s.orders.filter fun o => !(o.id == oid))
            else
              (s.orders.filter fun o => !(o.id == oid)) ++
                [returnedOrderOf orderToReturn]
          nextOrderId := s.nextOrderId
          bots := bs
          nextBotId := s.nextBotId
          timeouts := ts'
          removals := s.removals } := by
  obtain ⟨h1, h2, h3, h4, h5, h6, h7⟩ := hInv
  obtain ⟨hmemo, hoid⟩ := find?_id_facts hfind
  have hretid : (returnedOrderOf orderToReturn).id = oid := by
    rw [returnedOrderOf_id, hoid]
  have hupd_sub : (s.orders.filter fun o => !(o.id == oid)).Sublist s.orders :=
    List.filter_sublist _
  have hupd_ne : ∀ x ∈ s.orders.filter fun o => !(o.id == oid), x.id ≠ oid := by
    intro x hx
    have := (List.mem_filter.mp hx).2
    simpa using this
  have hperm : (if (returnedOrderOf orderToReturn).isVIP then
      vipInsert (returnedOrderOf orderToReturn)
        (s.orders.filter fun o => !(o.id == oid))
    else (s.orders.filter fun o => !(o.id == oid)) ++
      [returnedOrderOf orderToReturn]).Perm
      (returnedOrderOf orderToReturn :: s.orders.filter fun o => !(o.id == oid)) := by
    by_cases hv : (returnedOrderOf orderToReturn).isVIP = true
    · rw [if_pos hv]
      exact vipInsert_perm _ _
    · rw [if_neg hv]
      exact List.perm_append_singleton _ _
  have hRb : ∀ b' ∈ bs, RBusy b' b := by
    intro b' hb'
    have h7' := h7
    rw [hbs] at h7'
    exact (List.pairwise_append.mp h7').2.2 b' hb' b (by simp)
  have hpair := List.pairwise_append.mp (by rw [hbs] at h1; exact h1)
  have hpairR := List.pairwise_append.mp (by rw [hbs] at h7; exact h7)
  have hbsSub : ∀ x ∈ bs, x ∈ s.bots := by
    intro x hx
    rw [hbs]
    exact List.mem_append.mpr (Or.inl hx)
  refine ⟨hpair.1, fun x hx => h2 x (hbsSub x hx), ?_, ?_, ?_, ?_, hpairR.1⟩
  · have hcons : (returnedOrderOf orderToReturn ::
        s.orders.filter fun o => !(o.id == oid)).Pairwise
        (fun a b => a.id ≠ b.id) := by
      refine List.pairwise_cons.mpr ⟨?_, List.Pairwise.sublist hupd_sub h3⟩
      intro x hx
      rw [hretid]
      exact fun hEq => hupd_ne x hx hEq.symm
    exact hcons.perm hperm.symm fun hxy => Ne.symm hxy
  · intro o ho
    rcases List.mem_cons.mp (hperm.mem_iff.mp ho) with rfl | ho'
    · rw [hretid]
      have := h4 orderToReturn hmemo
      rw [hoid] at this
      exact this
    · exact h4 o (hupd_sub.mem ho')
  · by_cases hv : (returnedOrderOf orderToReturn).isVIP = true
    · rw [if_pos hv]
      refine PendingOrdered_vipInsert _ _ ?_ (PendingOrdered_sublist hupd_sub h5)
      exact isPendingVIP_iff.mpr ⟨hv, rfl⟩
    · rw [if_neg hv]
      exact PendingOrdered_append_normal _ _ (by simpa using hv)
        (PendingOrdered_sublist hupd_sub h5)
  · intro b' hb' hbusy'
    obtain ⟨oid', hpo', hlt', hord'⟩ := h6 b' (hbsSub b' hb') hbusy'
    refine ⟨oid', hpo', hlt', ?_⟩
    intro o ho hoid'
    rcases List.mem_cons.mp (hperm.mem_iff.mp ho) with rfl | ho'
    · exfalso
      have hne := hRb b' hb' hbusy' hbusy
      rw [hpo', hpo] at hne
      rw [hretid] at hoid'
      exact hne (by rw [hoid'])
    · exact hord' o (hupd_sub.mem ho') hoid'

theorem inv_removeBot (s : SysState) (h : Inv s) : Inv (removeBot s) := by
  rcases hlast : s.bots.getLast? with _ | b
  · rw [removeBot_eq_empty s hlast]
    exact h
  · obtain ⟨bs, hbs⟩ := List.getLast?_eq_some_iff.mp hlast
    obtain ⟨h1, h2, h3, h4, h5, h6, h7⟩ := h
    have hdrop : s.bots.dropLast = bs := by
      rw [hbs]
      exact List.dropLast_concat
    have hpair := List.pairwise_append.mp (by rw [hbs] at h1; exact h1)
    have hpairR := List.pairwise_append.mp (by rw [hbs] at h7; exact h7)
    have hbsSub : ∀ x ∈ bs, x ∈ s.bots := by
      intro x hx
      rw [hbs]
      exact List.mem_append.mpr (Or.inl hx)
    have hbots : ∀ ts', Inv { s with bots := s.bots.dropLast, timeouts := ts' } := by
      intro ts'
      refine ⟨?_, ?_, h3, h4, h5, ?_, ?_⟩
      · rw [hdrop]
        exact hpair.1
      · intro x hx
        rw [hdrop] at hx
        exact h2 x (hbsSub x hx)
      · intro x hx hbusy
        rw [hdrop] at hx
        exact h6 x (hbsSub x hx) hbusy
      · rw [hdrop]
        exact hpairR.1
    by_cases hst : b.status = BotStatus.processing
    · rcases hpo : b.processingOrderId with _ | oid
      · rw [removeBot_eq_notbusy s b hlast (Or.inr hpo)]
        exact hbots s.timeouts
      · rcases hfind : s.orders.find? (fun o => o.id == oid) with _ | orderToReturn
        · rw [removeBot_eq_missing s b oid hlast hst hpo hfind]
          exact hbots _
        · rw [removeBot_eq_found s b oid orderToReturn hlast hst hpo hfind]
          have := inv_reinsert_core s bs b oid orderToReturn
            ⟨h1, h2, h3, h4, h5, h6, h7⟩ hbs hst hpo hfind
            (clearTimeoutKey (b.id, oid) s.timeouts)
          rw [← hdrop] at this
          exact this
    · rw [removeBot_eq_notbusy s b hlast (Or.inl hst)]
      exact hbots s.timeouts

theorem inv_handleOrderComplete (botId orderId : Nat) (s : SysState) (h : Inv s) :
    Inv (handleOrderComplete botId orderId s) := by
  cases hv : validPairing s botId orderId
  · rw [handleOrderComplete_invalid _ _ _ hv]
    exact h
  · rw [handleOrderComplete_valid _ _ _ hv]
    obtain ⟨h1, h2, h3, h4, h5, h6, h7⟩ := h
    refine ⟨?_, ?_, ?_, ?_, ?_, ?_, ?_⟩
    · refine List.pairwise_map.mpr (h1.imp fun hab => ?_)
      rw [idleBotUpd_id, idleBotUpd_id]
      exact hab
    · intro b hb
      obtain ⟨y, hy, rfl⟩ := List.mem_map.mp hb
      rw [idleBotUpd_id]
      exact h2 y hy
    · refine List.pairwise_map.mpr (h3.imp fun hab => ?_)
      rw [completeOrderUpd_id, completeOrderUpd_id]
      exact hab
    · intro x hx
      obtain ⟨z, hz, rfl⟩ := List.mem_map.mp hx
      rw [completeOrderUpd_id]
      exact h4 z hz
    · exact PendingOrdered_map_of_guard _ (completeOrderUpd_pending_eq orderId botId) _ h5
    · intro b' hb' hbusy'
      obtain ⟨y, hy, rfl⟩ := List.mem_map.mp hb'
      have hy' := idleBotUpd_busy_eq botId y hbusy'
      rw [hy'] at hbusy' ⊢
      obtain ⟨oid', hpo', hlt', hord'⟩ := h6 y hy hbusy'
      have hyid : y.id ≠ botId := by
        intro hEq
        have : idleBotUpd botId y = { y with status := .idle, processingOrderId := none } := by
          unfold idleBotUpd
          rw [if_pos (by simp [hEq])]
        rw [this] at hy'
        have := congrArg Bot.status hy'
        simp at this
        rw [← this] at hbusy'
        cases hbusy'
      refine ⟨oid', hpo', hlt', ?_⟩
      intro x hx hxid
      obtain ⟨z, hz, rfl⟩ := List.mem_map.mp hx
      rw [completeOrderUpd_id] at hxid
      have hz' := hord' z hz hxid
      have hguard : (z.id == orderId && z.status == OrderStatus.processing &&
          z.botId == some botId) = false := by
        by_contra hne
        have hbid : z.botId = some botId := by
          simp only [Bool.not_eq_false, Bool.and_eq_true, beq_iff_eq] at hne
          exact hne.2
        rw [hz'.2] at hbid
        exact hyid (by injection hbid)
      have heq : completeOrderUpd orderId botId z = z := by
        unfold completeOrderUpd
        simp only [hguard, Bool.false_eq_true, if_false]
      rw [heq]
      exact hz'
    · exact pairwise_RBusy_map_idleBotUpd botId _ h7

theorem inv_timerFire (botId orderId : Nat) (s : SysState) (h : Inv s) :
    Inv (timerFire botId orderId s) := by
  by_cases hmem : (botId, orderId) ∈ s.timeouts
  · rw [timerFire_eq_mem _ _ _ hmem]
    exact inv_handleOrderComplete botId orderId s h
  · rw [timerFire_eq_not_mem _ _ _ hmem]
    exact h

theorem inv_matchPass (now : Nat) (s : SysState) (h : Inv s) :
    Inv (matchPass now s) := by
  rcases hidle : s.bots.filter Bot.isIdle with _ | ⟨b, bs⟩
  · rw [matchPass_eq_id_noidle now s hidle]
    exact h
  · rcases hpr : prioritizedOf s with _ | ⟨o, os⟩
    · rw [matchPass_eq_id_nopr now s hpr]
      exact h
    · rw [matchPass_eq_assign now s b bs o os hidle hpr]
      obtain ⟨h1, h2, h3, h4, h5, h6, h7⟩ := h
      have hbmem' : b ∈ s.bots.filter Bot.isIdle := by
        rw [hidle]
        exact List.mem_cons_self _ _
      have hbmem : b ∈ s.bots := (List.mem_filter.mp hbmem').1
      have homem : o ∈ s.orders.filter Order.isPending := by
        have hmem : o ∈ prioritizedOf s := by
          rw [hpr]
          exact List.mem_cons_self _ _
        unfold prioritizedOf at hmem
        rcases List.mem_append.mp hmem with h' | h'
        · exact (List.mem_filter.mp h').1
        · exact (List.mem_filter.mp h').1
      have hoords : o ∈ s.orders := (List.mem_filter.mp homem).1
      have hostatus : o.status = OrderStatus.pending :=
        isPending_iff.mp (List.mem_filter.mp homem).2
      have hnobody : ∀ y ∈ s.bots, y.status = BotStatus.processing →
          y.processingOrderId ≠ some o.id := by
        intro y hy hb hcontra
        obtain ⟨oid', hpo', hlt', hord'⟩ := h6 y hy hb
        rw [hpo'] at hcontra
        have hoid' : oid' = o.id := by injection hcontra
        have := (hord' o hoords hoid'.symm).1
        rw [hostatus] at this
        cases this
      unfold assignOrderToBot
      refine ⟨?_, ?_, ?_, ?_, ?_, ?_, ?_⟩
      · refine List.pairwise_map.mpr (h1.imp fun hab => ?_)
        rw [assignBotUpd_id, assignBotUpd_id]
        exact hab
      · intro x hx
        obtain ⟨y, hy, rfl⟩ := List.mem_map.mp hx
        rw [assignBotUpd_id]
        exact h2 y hy
      · refine List.pairwise_map.mpr (h3.imp fun hab => ?_)
        rw [assignOrderUpd_id, assignOrderUpd_id]
        exact hab
      · intro x hx
        obtain ⟨z, hz, rfl⟩ := List.mem_map.mp hx
        rw [assignOrderUpd_id]
        exact h4 z hz
      · exact PendingOrdered_map_of_guard _ (assignOrderUpd_pending_eq o.id b.id now) _ h5
      · intro b' hb' hbusy'
        obtain ⟨y, hy, rfl⟩ := List.mem_map.mp hb'
        by_cases hyid : (y.id == b.id) = true
        · have hbeq : assignBotUpd b.id o.id y =
              { y with status := .processing, processingOrderId := some o.id } := by
            unfold assignBotUpd
            rw [if_pos hyid]
          rw [hbeq]
          refine ⟨o.id, rfl, h4 o hoords, ?_⟩
          intro x hx hxid
          obtain ⟨z, hz, rfl⟩ := List.mem_map.mp hx
          rw [assignOrderUpd_id] at hxid
          have hzid : (z.id == o.id) = true := by simp [hxid]
          have heq : assignOrderUpd o.id b.id now z =
              { z with
                status := .processing
                botId := some b.id
                progress := some 0
                startTime := some now
                animation := some "start-processing" } := by
            unfold assignOrderUpd
            rw [if_pos hzid]
          rw [heq]
          have hyb : y.id = b.id := by simpa using hyid
          exact ⟨rfl, by rw [hyb]⟩
        · have hbeq : assignBotUpd b.id o.id y = y := by
            unfold assignBotUpd
            rw [if_neg hyid]
          rw [hbeq] at hbusy' ⊢
          obtain ⟨oid', hpo', hlt', hord'⟩ := h6 y hy hbusy'
          refine ⟨oid', hpo', hlt', ?_⟩
          intro x hx hxid
          obtain ⟨z, hz, rfl⟩ := List.mem_map.mp hx
          rw [assignOrderUpd_id] at hxid
          by_cases hzid : (z.id == o.id) = true
          · exfalso
            have hz' : z.id = o.id := by simpa using hzid
            exact hnobody y hy hbusy' (by rw [hpo', ← hxid, hz'])
          · have heq : assignOrderUpd o.id b.id now z = z := by
              unfold assignOrderUpd
              rw [if_neg hzid]
            rw [heq]
            exact hord' z hz hxid
      · refine List.pairwise_map.mpr ((h1.and h7).imp_of_mem ?_)
        intro x y hx hy hxy
        intro hbx hby
        by_cases hxid : (x.id == b.id) = true
        · by_cases hyid : (y.id == b.id) = true
          · exfalso
            have ex : x.id = b.id := by simpa using hxid
            have ey : y.id = b.id := by simpa using hyid
            have := hxy.1
            omega
          · have ex : assignBotUpd b.id o.id x =
                { x with status := .processing, processingOrderId := some o.id } := by
              unfold assignBotUpd
              rw [if_pos hxid]
            have ey : assignBotUpd b.id o.id y = y := by
              unfold assignBotUpd
              rw [if_neg hyid]
            rw [ex, ey]
            rw [ey] at hby
            intro hcontra
            exact hnobody y hy hby (by rw [← hcontra])
        · by_cases hyid : (y.id == b.id) = true
          · have ex : assignBotUpd b.id o.id x = x := by
              unfold assignBotUpd
              rw [if_neg hxid]
            have ey : assignBotUpd b.id o.id y =
                { y with status := .processing, processingOrderId := some o.id } := by
              unfold assignBotUpd
              rw [if_pos hyid]
            rw [ex, ey]
            rw [ex] at hbx
            intro hcontra
            exact hnobody x hx hbx hcontra
          · have ex : assignBotUpd b.id o.id x = x := by
              unfold assignBotUpd
              rw [if_neg hxid]
            have ey : assignBotUpd b.id o.id y = y := by
              unfold assignBotUpd
              rw [if_neg hyid]
            rw [ex, ey]
            rw [ex] at hbx
            rw [ey] at hby
            exact hxy.2 hbx hby

theorem inv_step (e : Event) (s : SysState) (h : Inv s) : Inv (step e s) := by
  cases e with
  | submitNormal => exact inv_addNormalOrder s h
  | submitVIP => exact inv_addVIPOrder s h
  | cancel oid => exact inv_cancelOrder oid s h
  | addBot => exact inv_addBot s h
  | removeBot => exact inv_removeBot s h
  | fire b o => exact inv_timerFire b o s h
  | removal oid => exact inv_removalFire oid s h
  | reconcile now => exact inv_matchPass now s h
  | tick now => exact inv_progressTick now s h
  | anim => exact inv_animClear s h

theorem inv_init : Inv initState := by
  refine ⟨List.Pairwise.nil, ?_, List.Pairwise.nil, ?_, ?_, ?_, List.Pairwise.nil⟩ <;>
    simp [initState, PendingOrdered]

theorem reachable_inv (s : SysState) (h : Reachable s) : Inv s := by
  induction h with
  | init => exact inv_init
  | next e s hs ih => exact inv_step e s ih

/-! ### Further helpers used by the claim theorems -/

theorem not_mem_clearTimeoutKey (k : Nat × Nat) (ts : List (Nat × Nat)) :
    k ∉ clearTimeoutKey k ts := by
  intro h
  have := (List.mem_filter.mp h).2
  simp at this

theorem unique_by_id {l : List Order} (hne : l.Pairwise fun a b => a.id ≠ b.id)
    {o o' : Order} (ho : o ∈ l) (ho' : o' ∈ l) (hid : o'.id = o.id) : o' = o := by
  by_contra hcontra
  have hsymm : Symmetric fun a b : Order => a.id ≠ b.id := fun x y h => Ne.symm h
  exact List.Pairwise.forall hsymm hne ho' ho hcontra hid

/-- `cancelOrder` and `removeBot` search by id; an id absent from the
list yields a failed lookup. -/
theorem find?_id_eq_none {l : List Order} {oid : Nat}
    (h : ∀ o ∈ l, o.id ≠ oid) : l.find? (fun o => o.id == oid) = none := by
  rw [List.find?_eq_none]
  intro x hx
  simp [h x hx]

/-! ### C2: placement of newly submitted orders -/

/-- C2: submitting a NORMAL order appends it at the tail of the whole
sequence; submitting a VIP order inserts it immediately after the last
PENDING VIP order, else immediately before the first PENDING NORMAL
order, else at the end of the whole sequence. -/
theorem C2_submit_placement (s : SysState) :
    ((addNormalOrder s).orders = s.orders ++ [newNormalOrder s.nextOrderId]) ∧
    (∀ l₁ v l₂, s.orders = l₁ ++ v :: l₂ → isPendingVIP v = true →
      (∀ x ∈ l₂, isPendingVIP x = false) →
      (addVIPOrder s).orders = l₁ ++ v :: newVIPOrder s.nextOrderId :: l₂) ∧
    ((∀ x ∈ s.orders, isPendingVIP x = false) →
      ∀ l₁ nrm l₂, s.orders = l₁ ++ nrm :: l₂ → isPendingNormal nrm = true →
      (∀ x ∈ l₁, isPendingNormal x = false) →
      (addVIPOrder s).orders = l₁ ++ newVIPOrder s.nextOrderId :: nrm :: l₂) ∧
    ((∀ x ∈ s.orders, isPendingVIP x = false) →
      (∀ x ∈ s.orders, isPendingNormal x = false) →
      (addVIPOrder s).orders = s.orders ++ [newVIPOrder s.nextOrderId]) := by
  refine ⟨rfl, ?_, ?_, ?_⟩
  · intro l₁ v l₂ ho hv h₂
    show vipInsert (newVIPOrder s.nextOrderId) s.orders = _
    rw [ho]
    exact vipInsert_of_last_vip _ l₁ v l₂ hv h₂
  · intro hno l₁ nrm l₂ ho hn h₁
    show vipInsert (newVIPOrder s.nextOrderId) s.orders = _
    rw [ho]
    rw [ho] at hno
    exact vipInsert_of_first_normal _ l₁ nrm l₂ hno hn h₁
  · intro hno hno2
    show vipInsert (newVIPOrder s.nextOrderId) s.orders = _
    exact vipInsert_of_no_pending _ s.orders hno hno2

/-- A queue with one pending VIP order and one pending NORMAL order
behind it. -/
def w2v : Order := ⟨1, .pending, none, true, none, none, none⟩

def w2n : Order := ⟨2, .pending, none, false, none, none, none⟩

def w2s : SysState := ⟨[w2v, w2n], 3, [], 1, [], []⟩

/-- Witness for C2: in the concrete queue `[VIP 1, NORMAL 2]` the new
VIP order 3 lands between them. -/
theorem C2_submit_placement_witness :
    (addVIPOrder w2s).orders = [w2v, newVIPOrder 3, w2n] := by
  have h := (C2_submit_placement w2s).2.1 [] w2v [w2n] rfl (by decide)
    (by decide)
  simpa using h

/-! ### C10: removeBot with a dangling current-order id -/

/-- C10: if the most-recently-added bot is busy but its recorded
current-order id matches no order, `removeBot` leaves the order list
(and the removal schedule) unchanged while still clearing the bot's
timer entry and removing the bot. -/
theorem C10_removeBot_missing_order (s : SysState) (bs : List Bot) (b : Bot)
    (oid : Nat) (hbs : s.bots = bs ++ [b]) (hst : b.status = BotStatus.processing)
    (hpo : b.processingOrderId = some oid) (hnone : ∀ o ∈ s.orders, o.id ≠ oid) :
    (removeBot s).orders = s.orders ∧
    (removeBot s).bots = bs ∧
    (removeBot s).timeouts = clearTimeoutKey (b.id, oid) s.timeouts ∧
    (b.id, oid) ∉ (removeBot s).timeouts ∧
    (removeBot s).removals = s.removals := by
  have hlast : s.bots.getLast? = some b := by
    rw [hbs]
    exact List.getLast?_concat _
  have hfind := find?_id_eq_none hnone
  rw [removeBot_eq_missing s b oid hlast hst hpo hfind]
  refine ⟨rfl, ?_, rfl, not_mem_clearTimeoutKey _ _, rfl⟩
  show s.bots.dropLast = bs
  rw [hbs]
  exact List.dropLast_concat

/-- A pool whose busy last bot records an order id matching nothing. -/
def w10 : SysState :=
  ⟨[⟨3, .complete, none, false, none, none, none⟩], 9,
    [⟨1, .idle, none⟩, ⟨2, .processing, some 7⟩], 3, [(2, 7)], [4]⟩

/-- Witness for C10 at the concrete dangling state. -/
theorem C10_removeBot_missing_order_witness :
    (removeBot w10).orders = w10.orders ∧
    (removeBot w10).bots = [⟨1, .idle, none⟩] ∧
    (removeBot w10).timeouts = clearTimeoutKey (2, 7) w10.timeouts ∧
    (2, 7) ∉ (removeBot w10).timeouts ∧
    (removeBot w10).removals = w10.removals :=
  C10_removeBot_missing_order w10 [⟨1, .idle, none⟩] ⟨2, .processing, some 7⟩ 7
    rfl rfl rfl (by decide)

/-! ### C5: removeBot `LIFO` removal and reinsertion placement -/

/-- Removing the (unique, by id) order matching a failed predicate does
not change any filter that rejects it. -/
theorem filter_erase_eq (l : List Order) (oid : Nat) (ort : Order) (c : Order → Bool)
    (hfind : l.find? (fun o => o.id == oid) = some ort)
    (hne : l.Pairwise fun a b => a.id ≠ b.id) (hc : c ort = false) :
    (l.filter fun o => !(o.id == oid)).filter c = l.filter c := by
  rw [List.filter_filter]
  refine List.filter_congr fun x hx => ?_
  cases hcx : c x
  · simp
  · obtain ⟨hmem, hid⟩ := find?_id_facts hfind
    have hxid : x.id ≠ oid := by
      intro hxeq
      have : x = ort := unique_by_id hne hmem hx (by rw [hxeq, hid])
      rw [this] at hcx
      rw [hc] at hcx
      cases hcx
    simp [hxid]

/-- C5: `removeBot` is a no-op on an empty pool; otherwise it removes
the most-recently-added bot regardless of state; if that bot was busy,
its cook timer is cleared and its order is returned to PENDING at the
tail of its priority class among currently-pending orders (ahead of all
pending NORMALs when VIP). -/
theorem C5_removeBot_spec (s : SysState) :
    (s.bots = [] → removeBot s = s) ∧
    (∀ bs b, s.bots = bs ++ [b] →
      (removeBot s).bots = bs ∧
      ((s.bots.Pairwise fun x y => x.id < y.id) → ∀ b' ∈ bs, b'.id < b.id) ∧
      ((b.status ≠ BotStatus.processing ∨ b.processingOrderId = none) →
        (removeBot s).orders = s.orders ∧ (removeBot s).timeouts = s.timeouts) ∧
      (∀ oid orderToReturn, b.status = BotStatus.processing →
        b.processingOrderId = some oid →
        s.orders.find? (fun o => o.id == oid) = some orderToReturn →
        orderToReturn.status = OrderStatus.processing →
        (s.orders.Pairwise fun x y => x.id ≠ y.id) →
        PendingOrdered s.orders →
        (removeBot s).timeouts = clearTimeoutKey (b.id, oid) s.timeouts ∧
        (b.id, oid) ∉ (removeBot s).timeouts ∧
        (orderToReturn.isVIP = true →
          (removeBot s).orders.filter Order.isPending =
            s.orders.filter isPendingVIP ++
              returnedOrderOf orderToReturn :: s.orders.filter isPendingNormal) ∧
        (orderToReturn.isVIP = false →
          (removeBot s).orders.filter Order.isPending =
            s.orders.filter Order.isPending ++ [returnedOrderOf orderToReturn]))) := by
  constructor
  · intro hnil
    refine removeBot_eq_empty s ?_
    rw [hnil]
    rfl
  · intro bs b hbs
    have hlast : s.bots.getLast? = some b := by
      rw [hbs]
      exact List.getLast?_concat _
    have hdrop : s.bots.dropLast = bs := by
      rw [hbs]
      exact List.dropLast_concat
    refine ⟨?_, ?_, ?_, ?_⟩
    · have hbotsAll : (removeBot s).bots = s.bots.dropLast := by
        by_cases hst : b.status = BotStatus.processing
        · rcases hpo : b.processingOrderId with _ | oid
          · rw [removeBot_eq_notbusy s b hlast (Or.inr hpo)]
          · rcases hfind : s.orders.find? (fun o => o.id == oid) with _ | ort
            · rw [removeBot_eq_missing s b oid hlast hst hpo hfind]
            · rw [removeBot_eq_found s b oid ort hlast hst hpo hfind]
        · rw [removeBot_eq_notbusy s b hlast (Or.inl hst)]
      rw [hbotsAll, hdrop]
    · intro hsort b' hb'
      rw [hbs] at hsort
      exact (List.pairwise_append.mp hsort).2.2 b' hb' b (by simp)
    · intro hnot
      rw [removeBot_eq_notbusy s b hlast hnot]
      exact ⟨rfl, rfl⟩
    · intro oid orderToReturn hst hpo hfind hstatus hids hpend
      rw [removeBot_eq_found s b oid orderToReturn hlast hst hpo hfind]
      refine ⟨rfl, not_mem_clearTimeoutKey _ _, ?_, ?_⟩
      · intro hv
        have hretVIP : isPendingVIP (returnedOrderOf orderToReturn) = true :=
          isPendingVIP_iff.mpr ⟨by rw [returnedOrderOf_isVIP]; exact hv, rfl⟩
        have hupd : PendingOrdered (s.orders.filter fun o => !(o.id == oid)) :=
          PendingOrdered_sublist (List.filter_sublist _) hpend
        show (if (returnedOrderOf orderToReturn).isVIP then
            vipInsert (returnedOrderOf orderToReturn)
              (s.orders.filter fun o => !(o.id == oid))
          else (s.orders.filter fun o => !(o.id == oid)) ++
            [returnedOrderOf orderToReturn]).filter Order.isPending = _
        rw [if_pos (by rw [returnedOrderOf_isVIP]; exact hv)]
        rw [filter_pending_vipInsert _ _ hretVIP hupd]
        rw [filter_erase_eq s.orders oid orderToReturn isPendingVIP hfind hids
          (by simp [isPendingVIP, hstatus])]
        rw [filter_erase_eq s.orders oid orderToReturn isPendingNormal hfind hids
          (by simp [isPendingNormal, hstatus])]
      · intro hv
        show (if (returnedOrderOf orderToReturn).isVIP then
            vipInsert (returnedOrderOf orderToReturn)
              (s.orders.filter fun o => !(o.id == oid))
          else (s.orders.filter fun o => !(o.id == oid)) ++
            [returnedOrderOf orderToReturn]).filter Order.isPending = _
        rw [if_neg (by rw [returnedOrderOf_isVIP, hv]; exact Bool.false_ne_true)]
        rw [List.filter_append]
        rw [filter_erase_eq s.orders oid orderToReturn Order.isPending hfind hids
          (by simp [Order.isPending, hstatus])]
        congr 1

/-- A state with a pending VIP, a pending NORMAL, and a bot cooking a
VIP order. -/
def w5 : SysState :=
  ⟨[⟨2, .pending, none, true, none, none, none⟩,
    ⟨3, .pending, none, false, none, none, none⟩,
    ⟨1, .processing, some 1, true, some 0, some 0, none⟩], 4,
   [⟨1, .processing, some 1⟩], 2, [(1, 1)], []⟩

/-- Witness for C5: removing the busy bot returns VIP order 1 behind
pending VIP order 2 and ahead of pending NORMAL order 3. -/
theorem C5_removeBot_spec_witness :
    (removeBot w5).bots = [] ∧
    (removeBot w5).orders.filter Order.isPending =
      w5.orders.filter isPendingVIP ++
        returnedOrderOf ⟨1, .processing, some 1, true, some 0, some 0, none⟩ ::
          w5.orders.filter isPendingNormal ∧
    (1, 1) ∉ (removeBot w5).timeouts := by
  have hpen : PendingOrdered w5.orders := by
    unfold PendingOrdered
    have hfp : w5.orders.filter Order.isPending =
        [⟨2, .pending, none, true, none, none, none⟩,
         ⟨3, .pending, none, false, none, none, none⟩] := rfl
    rw [hfp]
    refine List.pairwise_cons.mpr ⟨?_, List.pairwise_singleton _ _⟩
    intro x hx
    have hx' : x = ⟨3, .pending, none, false, none, none, none⟩ := by
      simpa using hx
    subst hx'
    intro hv
    cases hv
  have h := (C5_removeBot_spec w5).2 [] ⟨1, .processing, some 1⟩ rfl
  have h4 := h.2.2.2 1 ⟨1, .processing, some 1, true, some 0, some 0, none⟩
    rfl rfl (by decide) rfl (by decide) hpen
  exact ⟨h.1, h4.2.2.1 rfl, h4.2.1⟩

/-! ### Concrete reachable states used by the corrected claims -/

/-- One normal order submitted. -/
def sP : SysState := step .submitNormal initState

/-- Order 1 was cooked to completion by bot 1. -/
def sC : SysState :=
  step (.fire 1 1) (step (.reconcile 0) (step .addBot sP))

/-- Order 1 was cancelled while PENDING, then a bot was added and the
matching pass assigned the still-pending cancelled order to it. -/
def u4 : SysState :=
  step (.reconcile 0) (step .addBot (step (.cancel 1) sP))

/-- ... and then the delayed removal fired, deleting order 1 while bot 1
still records it as its current order. -/
def u5 : SysState := step (.removal 1) u4

/-! ### C6: cancelOrder on unknown or COMPLETE ids -/

/-- C6 counterexample: `cancelOrder` on a COMPLETE order is not a
no-op — the order is marked at once and deleted when the delayed
removal fires. -/
theorem C6_counterexample :
    (∃ o ∈ sC.orders, o.id = 1 ∧ o.status = OrderStatus.complete) ∧
    (cancelOrder 1 sC).orders ≠ sC.orders ∧
    (∀ o ∈ (removalFire 1 (cancelOrder 1 sC)).orders, o.id ≠ 1) := by
  decide

/-- C6 (amended): `cancelOrder` on an id matching no existing order is
a complete no-op; on a COMPLETE order it leaves the bot pool and the
cook-timer table unchanged but marks the order with the removing
animation and schedules its delayed removal. -/
theorem C6_cancel_unknown_or_complete (s : SysState) (oid : Nat) :
    ((∀ o ∈ s.orders, o.id ≠ oid) → cancelOrder oid s = s) ∧
    (∀ o, s.orders.find? (fun x => x.id == oid) = some o →
      o.status = OrderStatus.complete →
      (cancelOrder oid s).bots = s.bots ∧
      (cancelOrder oid s).timeouts = s.timeouts ∧
      (cancelOrder oid s).orders = s.orders.map (markRemoving oid) ∧
      (cancelOrder oid s).removals = oid :: s.removals) := by
  constructor
  · intro hnone
    exact cancelOrder_eq_none oid s (find?_id_eq_none hnone)
  · intro o hfind hcomp
    rw [cancelOrder_eq_mark oid s o hfind (Or.inl (by rw [hcomp]; intro h; cases h))]
    exact ⟨rfl, rfl, rfl, rfl⟩

/-- Witness for the amended C6 at the concrete completed-order state. -/
theorem C6_cancel_unknown_or_complete_witness :
    (cancelOrder 1 sC).bots = sC.bots ∧
    (cancelOrder 1 sC).timeouts = sC.timeouts ∧
    (cancelOrder 1 sC).orders = sC.orders.map (markRemoving 1) ∧
    (cancelOrder 1 sC).removals = 1 :: sC.removals :=
  (C6_cancel_unknown_or_complete sC 1).2
    ⟨1, .complete, none, false, none, none, some "complete"⟩ (by decide) rfl

/-! ### C7: immediacy of cancellation effects -/

/-- C7 counterexample: cancelling a PENDING order does not remove it
from the pending snapshot in the same operation — it is still PENDING
(only marked) until the delayed removal fires. -/
theorem C7_counterexample :
    ∃ o ∈ (cancelOrder 1 sP).orders.filter Order.isPending, o.id = 1 := by
  decide

/-- C7 (amended): cancelling a PENDING order only marks it — it stays
in the pending snapshot until the delayed removal event deletes it;
cancelling a PROCESSING order does set its assigned bot to IDLE
immediately. -/
theorem C7_cancel_immediacy (s : SysState) (oid : Nat) :
    (∀ o, s.orders.find? (fun x => x.id == oid) = some o →
      o.status = OrderStatus.pending →
      (∃ o' ∈ (cancelOrder oid s).orders.filter Order.isPending, o'.id = oid) ∧
      (∀ o' ∈ (removalFire oid (cancelOrder oid s)).orders, o'.id ≠ oid)) ∧
    (∀ o bid, s.orders.find? (fun x => x.id == oid) = some o →
      o.status = OrderStatus.processing → o.botId = some bid →
      ∀ b ∈ (cancelOrder oid s).bots, b.id = bid →
        b.status = BotStatus.idle ∧ b.processingOrderId = none) := by
  constructor
  · intro o hfind hpend
    obtain ⟨hmem, hid⟩ := find?_id_facts hfind
    have hmark : cancelOrder oid s =
        { s with
          orders := s.orders.map (markRemoving oid)
          removals := oid :: s.removals } :=
      cancelOrder_eq_mark oid s o hfind (Or.inl (by rw [hpend]; intro h; cases h))
    constructor
    · refine ⟨markRemoving oid o, ?_, ?_⟩
      · rw [hmark]
        refine List.mem_filter.mpr ⟨List.mem_map.mpr ⟨o, hmem, rfl⟩, ?_⟩
        rw [isPending_iff, markRemoving_status]
        exact hpend
      · rw [markRemoving_id]
        exact hid
    · intro o' ho'
      have hremovals : oid ∈ (cancelOrder oid s).removals := by
        rw [hmark]
        exact List.mem_cons_self _ _
      unfold removalFire at ho'
      rw [if_pos hremovals] at ho'
      have := (List.mem_filter.mp ho').2
      simpa using this
  · intro o bid hfind hproc hbot b hb hbid
    rw [cancelOrder_eq_busy oid s o bid hfind hproc hbot] at hb
    obtain ⟨y, hy, rfl⟩ := List.mem_map.mp hb
    rw [idleBotUpd_id] at hbid
    have : idleBotUpd bid y = { y with status := .idle, processingOrderId := none } := by
      unfold idleBotUpd
      rw [if_pos (by simp [hbid])]
    rw [this]
    exact ⟨rfl, rfl⟩

/-- Witness for the amended C7: the cancelled pending order 1 is still
in the pending snapshot, and the later removal deletes it. -/
theorem C7_cancel_immediacy_witness :
    (∃ o' ∈ (cancelOrder 1 sP).orders.filter Order.isPending, o'.id = 1) ∧
    (∀ o' ∈ (removalFire 1 (cancelOrder 1 sP)).orders, o'.id ≠ 1) :=
  (C7_cancel_immediacy sP 1).1 ⟨1, .pending, none, false, none, none, some "new"⟩
    (by decide) rfl

/-! ### C4: completion-timer firing -/

/-- C4 counterexample: at the reachable state `u5` the validity check
still passes (bot 1 exists, is busy, and records order 1), yet the
firing does not finalize any order — order 1 is gone, and only the bot
is reset. So "finalized if and only if the check passes" fails. -/
theorem C4_counterexample :
    validPairing u5 1 1 = true ∧ (1, 1) ∈ u5.timeouts ∧
    (∀ o ∈ (timerFire 1 1 u5).orders,
      ¬(o.id = 1 ∧ o.status = OrderStatus.complete)) ∧
    (∃ b ∈ (timerFire 1 1 u5).bots, b.id = 1 ∧ b.status = BotStatus.idle) := by
  decide

/-- C4 (amended): when the timer fires, nothing but the timer entry
changes unless the bot-side check passes; when it passes, the bot is
reset to IDLE, and the order is finalized provided it is still present,
PROCESSING, and assigned to that bot; orders not in that configuration
are untouched; the timer entry is removed in every case. -/
theorem C4_completion_guard (botId orderId : Nat) (s : SysState) :
    (validPairing s botId orderId = false →
      (handleOrderComplete botId orderId s).orders = s.orders ∧
      (handleOrderComplete botId orderId s).bots = s.bots) ∧
    (validPairing s botId orderId = true →
      (∀ o ∈ s.orders, o.id = orderId → o.status = OrderStatus.processing →
        o.botId = some botId →
        ∃ o' ∈ (handleOrderComplete botId orderId s).orders,
          o'.id = orderId ∧ o'.status = OrderStatus.complete ∧
          o'.botId = none ∧ o'.startTime = none) ∧
      (∀ b ∈ s.bots, b.id = botId →
        ∃ b' ∈ (handleOrderComplete botId orderId s).bots,
          b'.id = botId ∧ b'.status = BotStatus.idle ∧
          b'.processingOrderId = none) ∧
      (∀ o ∈ s.orders,
        ¬(o.id = orderId ∧ o.status = OrderStatus.processing ∧
          o.botId = some botId) →
        o ∈ (handleOrderComplete botId orderId s).orders)) ∧
    (botId, orderId) ∉ (handleOrderComplete botId orderId s).timeouts := by
  refine ⟨?_, ?_, ?_⟩
  · intro hv
    rw [handleOrderComplete_invalid _ _ _ hv]
    exact ⟨rfl, rfl⟩
  · intro hv
    rw [handleOrderComplete_valid _ _ _ hv]
    refine ⟨?_, ?_, ?_⟩
    · intro o ho hid hproc hbot
      refine ⟨completeOrderUpd orderId botId o, List.mem_map.mpr ⟨o, ho, rfl⟩, ?_⟩
      have hguard : (o.id == orderId && o.status == OrderStatus.processing &&
          o.botId == some botId) = true := by
        simp [hid, hproc, hbot]
      have : completeOrderUpd orderId botId o =
          { o with
            status := .complete
            botId := none
            progress := none
            startTime := none
            animation := some "complete" } := by
        unfold completeOrderUpd
        rw [if_pos hguard]
      rw [this]
      exact ⟨hid, rfl, rfl, rfl⟩
    · intro b hb hbid
      refine ⟨idleBotUpd botId b, List.mem_map.mpr ⟨b, hb, rfl⟩, ?_⟩
      have : idleBotUpd botId b =
          { b with status := .idle, processingOrderId := none } := by
        unfold idleBotUpd
        rw [if_pos (by simp [hbid])]
      rw [this]
      exact ⟨hbid, rfl, rfl⟩
    · intro o ho hno
      have hguard : (o.id == orderId && o.status == OrderStatus.processing &&
          o.botId == some botId) = false := by
        by_contra hne
        simp only [Bool.not_eq_false, Bool.and_eq_true, beq_iff_eq] at hne
        exact hno ⟨hne.1.1, hne.1.2, hne.2⟩
      have heq : completeOrderUpd orderId botId o = o := by
        unfold completeOrderUpd
        simp only [hguard, Bool.false_eq_true, if_false]
      exact List.mem_map.mpr ⟨o, ho, heq⟩
  · cases hv : validPairing s botId orderId
    · rw [handleOrderComplete_invalid _ _ _ hv]
      exact not_mem_clearTimeoutKey _ _
    · rw [handleOrderComplete_valid _ _ _ hv]
      exact not_mem_clearTimeoutKey _ _

/-- Witness for the amended C4 at the concrete state `u4` (bot 1 busy
cooking order 1, pairing valid). -/
theorem C4_completion_guard_witness :
    (∃ o' ∈ (handleOrderComplete 1 1 u4).orders,
      o'.id = 1 ∧ o'.status = OrderStatus.complete ∧
      o'.botId = none ∧ o'.startTime = none) ∧
    (1, 1) ∉ (handleOrderComplete 1 1 u4).timeouts := by
  have h := C4_completion_guard 1 1 u4
  refine ⟨(h.2.1 (by decide)).1
    ⟨1, .processing, some 1, false, some 0, some 0, some "start-processing"⟩
    (by decide) rfl rfl rfl, h.2.2⟩

/-! ### C9: derived progress percentage -/

/-- C9: the cook duration is 10 000 ms, and for a PROCESSING order the
progress written by the polling tick equals
`min(100, floor((now - startedAt) / COOK_DURATION_MS * 100))`. -/
theorem C9_progress_formula (now start : Nat) (h : start ≤ now) (s : SysState) :
    COOKING_TIME_MS = 10000 ∧
    ((progressOf now start : ℤ) =
      min 100 ⌊(((now : ℚ) - start) / (COOKING_TIME_MS : ℚ)) * 100⌋) ∧
    (∀ o ∈ s.orders, o.status = OrderStatus.processing → o.startTime = some start →
      ∃ o' ∈ (progressTick now s).orders,
        o'.id = o.id ∧ o'.progress = some (progressOf now start)) := by
  refine ⟨rfl, ?_, ?_⟩
  · have key : (((now - start) * 100 / 10000 : ℕ) : ℤ) =
        ⌊(((now : ℚ) - start) / (10000 : ℚ)) * 100⌋ := by
      have e1 : ((now : ℚ) - start) = ((now - start : ℕ) : ℚ) := by
        push_cast [h]
        ring
      rw [e1]
      have e2 : (((now - start : ℕ) : ℚ) / (10000 : ℚ)) * 100 =
          (((now - start : ℕ) * 100 : ℕ) : ℚ) / ((10000 : ℕ) : ℚ) := by
        push_cast
        ring
      rw [e2]
      have e3 : (((now - start : ℕ) * 100 : ℕ) : ℚ) =
          ((((now - start : ℕ) * 100 : ℕ) : ℤ) : ℚ) := by
        push_cast
        ring
      rw [e3, Rat.floor_intCast_div_natCast]
      exact_mod_cast (Int.natCast_div _ _).symm
    show ((min ((now - start) * 100 / 10000) 100 : ℕ) : ℤ) =
      min 100 ⌊(((now : ℚ) - start) / ((10000 : ℕ) : ℚ)) * 100⌋
    have hcast : ((10000 : ℕ) : ℚ) = (10000 : ℚ) := by norm_num
    rw [hcast]
    have hmin : ((min ((now - start) * 100 / 10000) 100 : ℕ) : ℤ) =
        min (((now - start) * 100 / 10000 : ℕ) : ℤ) (100 : ℤ) := by
      exact_mod_cast Nat.cast_min _ _
    rw [hmin, key, min_comm]
  · intro o ho hproc hstart
    have hst' : (o.status == OrderStatus.processing) = true := by simp [hproc]
    have heq : tickUpd now o = { o with progress := some (progressOf now start) } := by
      unfold tickUpd
      simp only [hst', hstart]
    exact ⟨tickUpd now o, List.mem_map.mpr ⟨o, ho, rfl⟩, by rw [heq], by rw [heq]⟩

/-- A state with one PROCESSING order that started at time 500. -/
def w9 : SysState :=
  ⟨[⟨1, .processing, some 1, false, some 0, some 500, none⟩], 2,
   [⟨1, .processing, some 1⟩], 2, [(1, 1)], []⟩

/-- Witness for C9 at `now = 2500`, `startedAt = 500`. -/
theorem C9_progress_formula_witness :
    COOKING_TIME_MS = 10000 ∧
    ((progressOf 2500 500 : ℤ) =
      min 100 ⌊(((2500 : ℕ) : ℚ) - ((500 : ℕ) : ℚ)) / (COOKING_TIME_MS : ℚ) * 100⌋) ∧
    (∀ o ∈ w9.orders, o.status = OrderStatus.processing → o.startTime = some 500 →
      ∃ o' ∈ (progressTick 2500 w9).orders,
        o'.id = o.id ∧ o'.progress = some (progressOf 2500 500)) :=
  C9_progress_formula 2500 500 (by omega) w9

/-! ### C1: the matching pass and its fixed point -/

theorem prioritizedOf_eq_pending (s : SysState) (h : PendingOrdered s.orders) :
    prioritizedOf s = s.orders.filter Order.isPending :=
  filter_vip_append_not _ h

theorem idleCount_assign_lt (now : Nat) (s : SysState) (b : Bot) (o : Order)
    (hb : b ∈ s.bots) (hidle : b.isIdle = true) :
    idleCount (assignOrderToBot b o now s) < idleCount s := by
  unfold idleCount assignOrderToBot
  rw [← List.countP_eq_length_filter, ← List.countP_eq_length_filter,
    List.countP_map]
  refine countP_lt_of_mem _ _ _ ?_ b hb hidle ?_
  · intro x hx hpx
    have hpx' : Bot.isIdle (assignBotUpd b.id o.id x) = true := hpx
    by_cases hxid : (x.id == b.id) = true
    · exfalso
      have hrec : assignBotUpd b.id o.id x =
          { x with status := .processing, processingOrderId := some o.id } := by
        unfold assignBotUpd
        rw [if_pos hxid]
      rw [hrec] at hpx'
      simp [Bot.isIdle] at hpx'
    · have hrec : assignBotUpd b.id o.id x = x := by
        unfold assignBotUpd
        rw [if_neg hxid]
      rw [hrec] at hpx'
      exact hpx'
  · show Bot.isIdle (assignBotUpd b.id o.id b) = false
    have hrec : assignBotUpd b.id o.id b =
        { b with status := .processing, processingOrderId := some o.id } := by
      unfold assignBotUpd
      rw [if_pos (by simp)]
    rw [hrec]
    rfl

theorem reconcileAll_of_fix (now n : Nat) (s : SysState)
    (h : matchPass now s = s) : reconcileAll now n s = s := by
  induction n with
  | zero => rfl
  | succ n ih =>
    show reconcileAll now n (matchPass now s) = s
    rw [h]
    exact ih

theorem prioritized_nil_fp (s : SysState) (hpr : prioritizedOf s = []) :
    s.orders.filter Order.isPending = [] := by
  unfold prioritizedOf at hpr
  rcases List.append_eq_nil.mp hpr with ⟨ha, hb⟩
  refine List.eq_nil_iff_forall_not_mem.mpr fun x hx => ?_
  by_cases hv : x.isVIP = true
  · have hmem : x ∈ (s.orders.filter Order.isPending).filter fun o => o.isVIP :=
      List.mem_filter.mpr ⟨hx, hv⟩
    rw [ha] at hmem
    simp at hmem
  · have hmem : x ∈ (s.orders.filter Order.isPending).filter fun o => !o.isVIP :=
      List.mem_filter.mpr ⟨hx, by simp [hv]⟩
    rw [hb] at hmem
    simp at hmem

theorem reconcileAll_fixpoint (now : Nat) :
    ∀ n s, idleCount s ≤ n →
      (reconcileAll now n s).bots.filter Bot.isIdle = [] ∨
      (reconcileAll now n s).orders.filter Order.isPending = [] := by
  intro n
  induction n with
  | zero =>
    intro s h
    left
    have h0 : idleCount s = 0 := Nat.le_zero.mp h
    unfold idleCount at h0
    exact List.length_eq_zero.mp h0
  | succ n ih =>
    intro s h
    rcases hidle : s.bots.filter Bot.isIdle with _ | ⟨b, bs⟩
    · have hfix := matchPass_eq_id_noidle now s hidle
      show (reconcileAll now n (matchPass now s)).bots.filter Bot.isIdle = [] ∨
        (reconcileAll now n (matchPass now s)).orders.filter Order.isPending = []
      rw [hfix]
      refine ih s ?_
      have h0 : idleCount s = 0 := by
        unfold idleCount
        rw [hidle]
        rfl
      omega
    · rcases hpr : prioritizedOf s with _ | ⟨o, os⟩
      · have hfix := matchPass_eq_id_nopr now s hpr
        show (reconcileAll now n (matchPass now s)).bots.filter Bot.isIdle = [] ∨
          (reconcileAll now n (matchPass now s)).orders.filter Order.isPending = []
        right
        rw [hfix, reconcileAll_of_fix now n s hfix]
        exact prioritized_nil_fp s hpr
      · have hbmem : b ∈ s.bots.filter Bot.isIdle := by
          rw [hidle]
          exact List.mem_cons_self _ _
        have hlt : idleCount (matchPass now s) < idleCount s := by
          rw [matchPass_eq_assign now s b bs o os hidle hpr]
          exact idleCount_assign_lt now s b o (List.mem_filter.mp hbmem).1
            (List.mem_filter.mp hbmem).2
        show (reconcileAll now n (matchPass now s)).bots.filter Bot.isIdle = [] ∨
          (reconcileAll now n (matchPass now s)).orders.filter Order.isPending = []
        refine ih (matchPass now s) ?_
        omega

/-- C1: in every reachable state with an idle bot and a pending order,
the matching pass assigns the first idle bot — which has the lowest id
among idle bots — to the head of the priority-ordered pending sequence
(which, by the queue invariant, is the head of the pending
subsequence); and iterating the pass as the effect system does reaches
a state in which no (idle bot, pending order) pair remains. -/
theorem C1_matching (now : Nat) (s : SysState) (hreach : Reachable s)
    (b : Bot) (bs : List Bot) (hidle : s.bots.filter Bot.isIdle = b :: bs)
    (o : Order) (os : List Order)
    (hpend : s.orders.filter Order.isPending = o :: os) :
    matchPass now s = assignOrderToBot b o now s ∧
    (∀ b' ∈ s.bots, b'.status = BotStatus.idle → b.id ≤ b'.id) ∧
    prioritizedOf s = s.orders.filter Order.isPending ∧
    (∀ n, idleCount s ≤ n →
      (reconcileAll now n s).bots.filter Bot.isIdle = [] ∨
      (reconcileAll now n s).orders.filter Order.isPending = []) := by
  obtain ⟨h1, _, _, _, h5, _, _⟩ := reachable_inv s hreach
  have hprio := prioritizedOf_eq_pending s h5
  refine ⟨?_, ?_, hprio, fun n hn => reconcileAll_fixpoint now n s hn⟩
  · exact matchPass_eq_assign now s b bs o os hidle (by rw [hprio, hpend])
  · intro b' hb' hidle'
    have hmem : b' ∈ s.bots.filter Bot.isIdle :=
      List.mem_filter.mpr ⟨hb', isIdle_iff.mpr hidle'⟩
    rw [hidle] at hmem
    rcases List.mem_cons.mp hmem with rfl | hmem'
    · exact le_refl _
    · have hp := List.Pairwise.filter Bot.isIdle h1
      rw [hidle] at hp
      exact le_of_lt ((List.pairwise_cons.mp hp).1 b' hmem')

/-! ### C8: terminality of COMPLETE -/

/-- C8 counterexample: a COMPLETE order can be removed from the system
by `cancelOrder` followed by the delayed removal. -/
theorem C8_counterexample :
    (∃ o ∈ sC.orders, o.id = 1 ∧ o.status = OrderStatus.complete) ∧
    (∀ o ∈ (step (Event.removal 1) (step (Event.cancel 1) sC)).orders,
      o.id ≠ 1) := by
  decide

/-- C8 (amended): in every reachable state, no event ever changes the
status of a COMPLETE order — while it remains in the list it stays
COMPLETE (though `cancelOrder` may delete it). -/
theorem C8_complete_terminal (s : SysState) (hreach : Reachable s) (e : Event) :
    ∀ o ∈ s.orders, o.status = OrderStatus.complete →
      ∀ o' ∈ (step e s).orders, o'.id = o.id → o'.status = OrderStatus.complete := by
  obtain ⟨h1, h2, h3, h4, h5, h6, h7⟩ := reachable_inv s hreach
  intro o ho hcomp o' ho' hid
  have hsame : o' ∈ s.orders → o'.status = OrderStatus.complete := by
    intro hmem
    rw [unique_by_id h3 ho hmem hid]
    exact hcomp
  have hmark : ∀ oid, o' ∈ s.orders.map (markRemoving oid) →
      o'.status = OrderStatus.complete := by
    intro oid hmem
    obtain ⟨z, hz, rfl⟩ := List.mem_map.mp hmem
    rw [markRemoving_id] at hid
    rw [markRemoving_status, unique_by_id h3 ho hz hid]
    exact hcomp
  have hfresh : ∀ x : Order, x.id = s.nextOrderId → o' = x → False := by
    intro x hx heq
    have hb := h4 o ho
    rw [heq, hx] at hid
    omega
  cases e with
  | submitNormal =>
    rcases List.mem_append.mp ho' with h' | h'
    · exact hsame h'
    · exact (hfresh _ rfl (by simpa using h')).elim
  | submitVIP =>
    rcases mem_vipInsert.mp ho' with h' | h'
    · exact (hfresh _ rfl h').elim
    · exact hsame h'
  | cancel oid =>
    have hstep : step (Event.cancel oid) s = cancelOrder oid s := rfl
    rw [hstep] at ho'
    rcases hfind : s.orders.find? (fun x => x.id == oid) with _ | oc
    · rw [cancelOrder_eq_none oid s hfind] at ho'
      exact hsame ho'
    · by_cases hst : oc.status = OrderStatus.processing
      · rcases hbot : oc.botId with _ | bid
        · rw [cancelOrder_eq_mark oid s oc hfind (Or.inr hbot)] at ho'
          exact hmark oid ho'
        · rw [cancelOrder_eq_busy oid s oc bid hfind hst hbot] at ho'
          exact hmark oid ho'
      · rw [cancelOrder_eq_mark oid s oc hfind (Or.inl hst)] at ho'
        exact hmark oid ho'
  | addBot => exact hsame ho'
  | removeBot =>
    have hstep : step Event.removeBot s = removeBot s := rfl
    rw [hstep] at ho'
    rcases hlast : s.bots.getLast? with _ | b
    · rw [removeBot_eq_empty s hlast] at ho'
      exact hsame ho'
    · by_cases hst : b.status = BotStatus.processing
      · rcases hpo : b.processingOrderId with _ | oid
        · rw [removeBot_eq_notbusy s b hlast (Or.inr hpo)] at ho'
          exact hsame ho'
        · rcases hfind : s.orders.find? (fun x => x.id == oid) with _ | ort
          · rw [removeBot_eq_missing s b oid hlast hst hpo hfind] at ho'
            exact hsame ho'
          · rw [removeBot_eq_found s b oid ort hlast hst hpo hfind] at ho'
            have hperm : (if (returnedOrderOf ort).isVIP then
                vipInsert (returnedOrderOf ort)
                  (s.orders.filter fun x => !(x.id == oid))
              else (s.orders.filter fun x => !(x.id == oid)) ++
                [returnedOrderOf ort]).Perm
                (returnedOrderOf ort :: s.orders.filter fun x => !(x.id == oid)) := by
              by_cases hv : (returnedOrderOf ort).isVIP = true
              · rw [if_pos hv]
                exact vipInsert_perm _ _
              · rw [if_neg hv]
                exact List.perm_append_singleton _ _
            rcases List.mem_cons.mp (hperm.mem_iff.mp ho') with rfl | hupd
            · exfalso
              obtain ⟨hmemo, hoid⟩ := find?_id_facts hfind
              have hoido : o.id = oid := by
                rw [← hid, returnedOrderOf_id, hoid]
              obtain ⟨ys, hys⟩ := List.getLast?_eq_some_iff.mp hlast
              have hbmem : b ∈ s.bots := by
                rw [hys]
                simp
              obtain ⟨oid2, hpo2, _, hord⟩ := h6 b hbmem hst
              rw [hpo] at hpo2
              have hoid2 : oid2 = oid := by injection hpo2.symm
              have hstat := (hord o ho (by rw [hoido, hoid2])).1
              rw [hcomp] at hstat
              cases hstat
            · exact hsame ((List.filter_sublist _).mem hupd)
      · rw [removeBot_eq_notbusy s b hlast (Or.inl hst)] at ho'
        exact hsame ho'
  | fire bId oId =>
    have hstep : step (Event.fire bId oId) s = timerFire bId oId s := rfl
    rw [hstep] at ho'
    by_cases hmem : (bId, oId) ∈ s.timeouts
    · rw [timerFire_eq_mem _ _ _ hmem] at ho'
      cases hv : validPairing s bId oId
      · rw [handleOrderComplete_invalid _ _ _ hv] at ho'
        exact hsame ho'
      · rw [handleOrderComplete_valid _ _ _ hv] at ho'
        obtain ⟨z, hz, rfl⟩ := List.mem_map.mp ho'
        rw [completeOrderUpd_id] at hid
        have hzo : z = o := unique_by_id h3 ho hz hid
        subst hzo
        have hguard : (z.id == oId && z.status == OrderStatus.processing &&
            z.botId == some bId) = false := by
          simp [hcomp]
        have heq : completeOrderUpd oId bId z = z := by
          unfold completeOrderUpd
          simp only [hguard, Bool.false_eq_true, if_false]
        rw [heq]
        exact hcomp
    · rw [timerFire_eq_not_mem _ _ _ hmem] at ho'
      exact hsame ho'
  | removal oid =>
    have hstep : step (Event.removal oid) s = removalFire oid s := rfl
    rw [hstep] at ho'
    unfold removalFire at ho'
    by_cases hmem : oid ∈ s.removals
    · rw [if_pos hmem] at ho'
      exact hsame ((List.filter_sublist _).mem ho')
    · rw [if_neg hmem] at ho'
      exact hsame ho'
  | reconcile now =>
    have hstep : step (Event.reconcile now) s = matchPass now s := rfl
    rw [hstep] at ho'
    rcases hidle : s.bots.filter Bot.isIdle with _ | ⟨bb, bs2⟩
    · rw [matchPass_eq_id_noidle now s hidle] at ho'
      exact hsame ho'
    · rcases hpr : prioritizedOf s with _ | ⟨ot, os2⟩
      · rw [matchPass_eq_id_nopr now s hpr] at ho'
        exact hsame ho'
      · rw [matchPass_eq_assign now s bb bs2 ot os2 hidle hpr] at ho'
        obtain ⟨z, hz, rfl⟩ := List.mem_map.mp ho'
        rw [assignOrderUpd_id] at hid
        have hzo : z = o := unique_by_id h3 ho hz hid
        subst hzo
        have hot : ot ∈ s.orders ∧ ot.isPending = true := by
          have hmem2 : ot ∈ prioritizedOf s := by
            rw [hpr]
            exact List.mem_cons_self _ _
          unfold prioritizedOf at hmem2
          rcases List.mem_append.mp hmem2 with h' | h'
          · have h'' := List.mem_filter.mp h'
            exact ⟨(List.mem_filter.mp h''.1).1, (List.mem_filter.mp h''.1).2⟩
          · have h'' := List.mem_filter.mp h'
            exact ⟨(List.mem_filter.mp h''.1).1, (List.mem_filter.mp h''.1).2⟩
        have hguard : (z.id == ot.id) = false := by
          by_contra hne
          have hzid : z.id = ot.id := by simpa using hne
          have hzot : z = ot := unique_by_id h3 hot.1 hz hzid
          have hpend := isPending_iff.mp hot.2
          rw [← hzot, hcomp] at hpend
          cases hpend
        have heq : assignOrderUpd ot.id bb.id now z = z := by
          unfold assignOrderUpd
          simp only [hguard, Bool.false_eq_true, if_false]
        rw [heq]
        exact hcomp
  | tick now =>
    obtain ⟨z, hz, rfl⟩ := List.mem_map.mp ho'
    rw [tickUpd_id] at hid
    rw [tickUpd_status, unique_by_id h3 ho hz hid]
    exact hcomp
  | anim =>
    obtain ⟨z, hz, rfl⟩ := List.mem_map.mp ho'
    rw [animUpd_id] at hid
    rw [animUpd_status, unique_by_id h3 ho hz hid]
    exact hcomp

/-- Witness for the amended C8: the completed order 1 in `sC` keeps its
COMPLETE status across an animation-cleanup step, at the concrete
successor entry. -/
theorem C8_complete_terminal_witness :
    (⟨1, OrderStatus.complete, none, false, none, none, none⟩ : Order).status =
      OrderStatus.complete :=
  C8_complete_terminal sC
    (Reachable.next _ _ (Reachable.next _ _ (Reachable.next _ _
      (Reachable.next _ _ Reachable.init)))) Event.anim
    ⟨1, .complete, none, false, none, none, some "complete"⟩ (by decide) rfl
    ⟨1, .complete, none, false, none, none, none⟩ (by decide) rfl

/-- One bot added after one normal order was submitted. -/
def wC1 : SysState := step .addBot (step .submitNormal initState)

/-- Witness for C1 at the reachable state with one idle bot and one
pending order. -/
theorem C1_matching_witness :
    matchPass 0 wC1 =
      assignOrderToBot ⟨1, .idle, none⟩
        ⟨1, .pending, none, false, none, none, some "new"⟩ 0 wC1 ∧
    (∀ b' ∈ wC1.bots, b'.status = BotStatus.idle → (1 : Nat) ≤ b'.id) ∧
    prioritizedOf wC1 = wC1.orders.filter Order.isPending ∧
    (∀ n, idleCount wC1 ≤ n →
      (reconcileAll 0 n wC1).bots.filter Bot.isIdle = [] ∨
      (reconcileAll 0 n wC1).orders.filter Order.isPending = []) := by
  have hr : Reachable wC1 := by
    show Reachable (step Event.addBot (step Event.submitNormal initState))
    exact Reachable.next Event.addBot _
      (Reachable.next Event.submitNormal _ Reachable.init)
  exact C1_matching 0 wC1 hr ⟨1, .idle, none⟩ [] (by decide)
    ⟨1, .pending, none, false, none, none, some "new"⟩ [] (by decide)

/-! ### C3: priority ordering and per-class FIFO over every step -/

theorem classPend_true_eq (o : Order) : classPend true o = isPendingVIP o := by
  unfold classPend isPendingVIP
  cases o.isVIP <;> simp

theorem classPend_false_eq (o : Order) : classPend false o = isPendingNormal o := by
  unfold classPend isPendingNormal
  cases o.isVIP <;> simp

theorem classPend_pending {vip : Bool} {o : Order} (h : classPend vip o = true) :
    o.isPending = true := by
  simp only [classPend, Bool.and_eq_true, beq_iff_eq] at h
  exact isPending_iff.mpr h.2

theorem FIFOStep_of_eq {s s' : SysState} {vip : Bool}
    (h : pendingIdsOf vip s' = pendingIdsOf vip s) : FIFOStep s s' vip :=
  ⟨pendingIdsOf vip s, [], by rw [h, List.append_nil], List.Sublist.refl _, by simp⟩

theorem FIFOStep_of_sublist {s s' : SysState} {vip : Bool}
    (h : (pendingIdsOf vip s').Sublist (pendingIdsOf vip s)) : FIFOStep s s' vip :=
  ⟨pendingIdsOf vip s', [], (List.append_nil _).symm, h, by simp⟩

theorem FIFOStep_of_append {s s' : SysState} {vip : Bool} (fresh : List Nat)
    (h : pendingIdsOf vip s' = pendingIdsOf vip s ++ fresh)
    (hf : ∀ x ∈ fresh, x ∉ pendingIdsOf vip s) : FIFOStep s s' vip :=
  ⟨pendingIdsOf vip s, fresh, h, List.Sublist.refl _, hf⟩

theorem pids_map_eq (vip : Bool) (f : Order → Order) (l : List Order)
    (hid : ∀ o, (f o).id = o.id) (hstat : ∀ o, (f o).status = o.status)
    (hvip : ∀ o, (f o).isVIP = o.isVIP) :
    ((l.map f).filter (classPend vip)).map (fun o => o.id) =
      (l.filter (classPend vip)).map fun o => o.id := by
  rw [filter_map_eq_of_pres f (classPend vip) fun o => by
    unfold classPend
    rw [hstat, hvip]]
  rw [List.map_map]
  exact List.map_congr_left fun x hx => hid x

theorem pids_map_sublist (vip : Bool) (f : Order → Order) (l : List Order)
    (hguard : ∀ o, classPend vip (f o) = true → f o = o) :
    (((l.map f).filter (classPend vip)).map fun o => o.id).Sublist
      ((l.filter (classPend vip)).map fun o => o.id) :=
  (filter_map_sublist_of_guard f (classPend vip) hguard l).map _

theorem pids_filter_sublist (vip : Bool) (p : Order → Bool) (l : List Order) :
    (((l.filter p).filter (classPend vip)).map fun o => o.id).Sublist
      ((l.filter (classPend vip)).map fun o => o.id) :=
  (((List.filter_sublist l).filter _)).map _

theorem fresh_id_not_mem (s : SysState)
    (h4 : ∀ o ∈ s.orders, o.id < s.nextOrderId) (vip : Bool) :
    s.nextOrderId ∉ pendingIdsOf vip s := by
  intro hmem
  obtain ⟨o, ho, hid⟩ := List.mem_map.mp hmem
  have := h4 o (List.mem_filter.mp ho).1
  omega

/-- The pending-VIP filter after a VIP insertion: the new order joins
at the tail of the pending-VIP subsequence. -/
theorem filter_classVIP_vipInsert (new : Order) (l : List Order)
    (hnew : isPendingVIP new = true) (h : PendingOrdered l) :
    (vipInsert new l).filter isPendingVIP = l.filter isPendingVIP ++ [new] := by
  rw [filter_pendVIP_eq, filter_pending_vipInsert new l hnew h]
  rw [List.filter_append, List.filter_cons]
  have h1 : (l.filter isPendingVIP).filter (fun o => o.isVIP) = l.filter isPendingVIP :=
    List.filter_eq_self.mpr fun x hx =>
      (isPendingVIP_iff.mp (List.mem_filter.mp hx).2).1
  have h2 : (l.filter isPendingNormal).filter (fun o => o.isVIP) = [] :=
    List.filter_eq_nil_iff.mpr fun x hx => by
      simp [(isPendingNormal_iff.mp (List.mem_filter.mp hx).2).1]
  rw [h1, h2]
  simp [(isPendingVIP_iff.mp hnew).1]

/-- The pending-NORMAL filter is unchanged by a VIP insertion. -/
theorem filter_classNormal_vipInsert (new : Order) (l : List Order)
    (hnew : isPendingVIP new = true) (h : PendingOrdered l) :
    (vipInsert new l).filter isPendingNormal = l.filter isPendingNormal := by
  rw [filter_pendNormal_eq, filter_pending_vipInsert new l hnew h]
  rw [List.filter_append, List.filter_cons]
  have h1 : (l.filter isPendingVIP).filter (fun o => !o.isVIP) = [] :=
    List.filter_eq_nil_iff.mpr fun x hx => by
      simp [(isPendingVIP_iff.mp (List.mem_filter.mp hx).2).1]
  have h2 : (l.filter isPendingNormal).filter (fun o => !o.isVIP) =
      l.filter isPendingNormal :=
    List.filter_eq_self.mpr fun x hx => by
      simp [(isPendingNormal_iff.mp (List.mem_filter.mp hx).2).1]
  rw [h1, h2]
  have h3 : (!new.isVIP) = false := by
    simp [(isPendingVIP_iff.mp hnew).1]
  rw [h3]
  rw [if_neg (by simp)]
  rw [filter_pendNormal_eq]
  exact List.nil_append _

theorem hconv_true (l : List Order) :
    l.filter (classPend true) = l.filter isPendingVIP :=
  List.filter_congr fun x _ => classPend_true_eq x

theorem hconv_false (l : List Order) :
    l.filter (classPend false) = l.filter isPendingNormal :=
  List.filter_congr fun x _ => classPend_false_eq x

/-- An id whose (unique) order is PROCESSING appears in no pending-ids
list. -/
theorem erased_not_mem_pids (s : SysState) (oid : Nat) (ort : Order) (vip : Bool)
    (hfind : s.orders.find? (fun x => x.id == oid) = some ort)
    (h3 : s.orders.Pairwise fun a b => a.id ≠ b.id)
    (hstatus : ort.status = OrderStatus.processing) :
    oid ∉ pendingIdsOf vip s := by
  intro hmem
  obtain ⟨o, ho, hid⟩ := List.mem_map.mp hmem
  obtain ⟨hmemo, hoid⟩ := find?_id_facts hfind
  have ho' := List.mem_filter.mp ho
  have : o = ort := unique_by_id h3 hmemo ho'.1 (by rw [hid, hoid])
  have hp := classPend_pending ho'.2
  rw [this] at hp
  rw [isPending_iff] at hp
  rw [hstatus] at hp
  cases hp

/-- Every event preserves per-class FIFO order of the pending queue. -/
theorem FIFO_all (s : SysState) (hInv : Inv s) (e : Event) (vip : Bool) :
    FIFOStep s (step e s) vip := by
  obtain ⟨h1, h2, h3, h4, h5, h6, h7⟩ := hInv
  cases e with
  | submitNormal =>
    cases vip
    · refine FIFOStep_of_append [s.nextOrderId] ?_ ?_
      · show ((s.orders ++ [newNormalOrder s.nextOrderId]).filter
            (classPend false)).map (fun o => o.id) =
          pendingIdsOf false s ++ [s.nextOrderId]
        rw [List.filter_append, List.map_append]
        rfl
      · intro x hx
        have hx' : x = s.nextOrderId := by simpa using hx
        subst hx'
        exact fresh_id_not_mem s h4 false
    · refine FIFOStep_of_eq ?_
      show ((s.orders ++ [newNormalOrder s.nextOrderId]).filter
          (classPend true)).map (fun o => o.id) = pendingIdsOf true s
      rw [List.filter_append]
      have hnil : [newNormalOrder s.nextOrderId].filter (classPend true) = [] := rfl
      rw [hnil, List.append_nil]
      rfl
  | submitVIP =>
    cases vip
    · refine FIFOStep_of_eq ?_
      show ((vipInsert (newVIPOrder s.nextOrderId) s.orders).filter
          (classPend false)).map (fun o => o.id) = pendingIdsOf false s
      rw [hconv_false, filter_classNormal_vipInsert (newVIPOrder s.nextOrderId)
        s.orders rfl h5, ← hconv_false]
      rfl
    · refine FIFOStep_of_append [s.nextOrderId] ?_ ?_
      · show ((vipInsert (newVIPOrder s.nextOrderId) s.orders).filter
            (classPend true)).map (fun o => o.id) =
          pendingIdsOf true s ++ [s.nextOrderId]
        rw [hconv_true, filter_classVIP_vipInsert (newVIPOrder s.nextOrderId)
          s.orders rfl h5, List.map_append, ← hconv_true]
        rfl
      · intro x hx
        have hx' : x = s.nextOrderId := by simpa using hx
        subst hx'
        exact fresh_id_not_mem s h4 true
  | cancel oid =>
    have hmap : ∀ vb : Bool,
        ((s.orders.map (markRemoving oid)).filter (classPend vb)).map
          (fun o => o.id) =
        (s.orders.filter (classPend vb)).map (fun o => o.id) := fun vb =>
      pids_map_eq vb _ s.orders (markRemoving_id oid) (markRemoving_status oid)
        (markRemoving_isVIP oid)
    rcases hfind : s.orders.find? (fun x => x.id == oid) with _ | oc
    · exact FIFOStep_of_eq (by
        rw [show step (Event.cancel oid) s = cancelOrder oid s from rfl,
          cancelOrder_eq_none oid s hfind])
    · by_cases hst : oc.status = OrderStatus.processing
      · rcases hbot : oc.botId with _ | bid
        · refine FIFOStep_of_eq ?_
          rw [show step (Event.cancel oid) s = cancelOrder oid s from rfl,
            cancelOrder_eq_mark oid s oc hfind (Or.inr hbot)]
          exact hmap vip
        · refine FIFOStep_of_eq ?_
          rw [show step (Event.cancel oid) s = cancelOrder oid s from rfl,
            cancelOrder_eq_busy oid s oc bid hfind hst hbot]
          exact hmap vip
      · refine FIFOStep_of_eq ?_
        rw [show step (Event.cancel oid) s = cancelOrder oid s from rfl,
          cancelOrder_eq_mark oid s oc hfind (Or.inl hst)]
        exact hmap vip
  | addBot => exact FIFOStep_of_eq rfl
  | removeBot =>
    rcases hlast : s.bots.getLast? with _ | b
    · exact FIFOStep_of_eq (by
        rw [show step Event.removeBot s = removeBot s from rfl,
          removeBot_eq_empty s hlast])
    · by_cases hst : b.status = BotStatus.processing
      · rcases hpo : b.processingOrderId with _ | oid
        · exact FIFOStep_of_eq (by
            rw [show step Event.removeBot s = removeBot s from rfl,
              removeBot_eq_notbusy s b hlast (Or.inr hpo)]
            rfl)
        · rcases hfind : s.orders.find? (fun x => x.id == oid) with _ | ort
          · exact FIFOStep_of_eq (by
              rw [show step Event.removeBot s = removeBot s from rfl,
                removeBot_eq_missing s b oid hlast hst hpo hfind]
              rfl)
          · obtain ⟨hmemo, hoid⟩ := find?_id_facts hfind
            obtain ⟨ys, hys⟩ := List.getLast?_eq_some_iff.mp hlast
            have hbmem : b ∈ s.bots := by
              rw [hys]
              simp
            obtain ⟨oid2, hpo2, _, hord⟩ := h6 b hbmem hst
            rw [hpo] at hpo2
            have hoid2 : oid2 = oid := by injection hpo2.symm
            have hstatus : ort.status = OrderStatus.processing :=
              (hord ort hmemo (by rw [hoid]; exact hoid2.symm)).1
            have hupd5 : PendingOrdered (s.orders.filter fun x => !(x.id == oid)) :=
              PendingOrdered_sublist (List.filter_sublist _) h5
            have hclassF : ∀ c : Order → Bool, c ort = false →
                (s.orders.filter fun x => !(x.id == oid)).filter c =
                  s.orders.filter c := fun c hc =>
              filter_erase_eq s.orders oid ort c hfind h3 hc
            have hstep := removeBot_eq_found s b oid ort hlast hst hpo hfind
            by_cases hv : (returnedOrderOf ort).isVIP = true
            · have hnew : isPendingVIP (returnedOrderOf ort) = true :=
                isPendingVIP_iff.mpr ⟨hv, rfl⟩
              have horders : (step Event.removeBot s).orders =
                  vipInsert (returnedOrderOf ort)
                    (s.orders.filter fun x => !(x.id == oid)) := by
                rw [show step Event.removeBot s = removeBot s from rfl, hstep]
                show (if (returnedOrderOf ort).isVIP then _ else _) = _
                rw [if_pos hv]
              cases vip
              · refine FIFOStep_of_eq ?_
                show ((step Event.removeBot s).orders.filter
                    (classPend false)).map (fun o => o.id) = pendingIdsOf false s
                rw [horders, hconv_false, filter_classNormal_vipInsert _ _ hnew hupd5,
                  hclassF isPendingNormal (by simp [isPendingNormal, hstatus]),
                  ← hconv_false]
                rfl
              · refine FIFOStep_of_append [oid] ?_ ?_
                · show ((step Event.removeBot s).orders.filter
                      (classPend true)).map (fun o => o.id) =
                    pendingIdsOf true s ++ [oid]
                  rw [horders, hconv_true, filter_classVIP_vipInsert _ _ hnew hupd5,
                    List.map_append,
                    hclassF isPendingVIP (by simp [isPendingVIP, hstatus]),
                    ← hconv_true]
                  congr 1
                  simp [returnedOrderOf_id, hoid]
                · intro x hx
                  have hx' : x = oid := by simpa using hx
                  rw [hx']
                  exact erased_not_mem_pids s oid ort true hfind h3 hstatus
            · have hvf : (returnedOrderOf ort).isVIP = false := by simpa using hv
              have horders : (step Event.removeBot s).orders =
                  (s.orders.filter fun x => !(x.id == oid)) ++
                    [returnedOrderOf ort] := by
                rw [show step Event.removeBot s = removeBot s from rfl, hstep]
                show (if (returnedOrderOf ort).isVIP then _ else _) = _
                rw [if_neg hv]
              cases vip
              · refine FIFOStep_of_append [oid] ?_ ?_
                · show ((step Event.removeBot s).orders.filter
                      (classPend false)).map (fun o => o.id) =
                    pendingIdsOf false s ++ [oid]
                  rw [horders, List.filter_append, List.map_append,
                    hconv_false (s.orders.filter fun x => !(x.id == oid)),
                    hclassF isPendingNormal (by simp [isPendingNormal, hstatus]),
                    ← hconv_false s.orders]
                  congr 1
                  have hvf' : ort.isVIP = false := by
                    rw [← returnedOrderOf_isVIP]
                    exact hvf
                  have hc : classPend false (returnedOrderOf ort) = true := by
                    simp [classPend, returnedOrderOf, hvf']
                  simp [hc, returnedOrderOf_id, hoid]
                · intro x hx
                  have hx' : x = oid := by simpa using hx
                  rw [hx']
                  exact erased_not_mem_pids s oid ort false hfind h3 hstatus
              · refine FIFOStep_of_eq ?_
                show ((step Event.removeBot s).orders.filter
                    (classPend true)).map (fun o => o.id) = pendingIdsOf true s
                rw [horders, List.filter_append]
                have hc : classPend true (returnedOrderOf ort) = false := by
                  simp [classPend, hvf]
                have hnil : [returnedOrderOf ort].filter (classPend true) = [] := by
                  simp [hc]
                rw [hnil, List.append_nil,
                  hconv_true (s.orders.filter fun x => !(x.id == oid)),
                  hclassF isPendingVIP (by simp [isPendingVIP, hstatus]),
                  ← hconv_true s.orders]
                rfl
      · exact FIFOStep_of_eq (by
          rw [show step Event.removeBot s = removeBot s from rfl,
            removeBot_eq_notbusy s b hlast (Or.inl hst)]
          rfl)
  | fire bId oId =>
    by_cases hmem : (bId, oId) ∈ s.timeouts
    · cases hv : validPairing s bId oId
      · exact FIFOStep_of_eq (by
          rw [show step (Event.fire bId oId) s = timerFire bId oId s from rfl,
            timerFire_eq_mem _ _ _ hmem, handleOrderComplete_invalid _ _ _ hv]
          rfl)
      · refine FIFOStep_of_sublist ?_
        have horders : (step (Event.fire bId oId) s).orders =
            s.orders.map (completeOrderUpd oId bId) := by
          rw [show step (Event.fire bId oId) s = timerFire bId oId s from rfl,
            timerFire_eq_mem _ _ _ hmem, handleOrderComplete_valid _ _ _ hv]
        show (((step (Event.fire bId oId) s).orders.filter
            (classPend vip)).map fun o => o.id).Sublist (pendingIdsOf vip s)
        rw [horders]
        exact pids_map_sublist vip _ s.orders fun o ho =>
          completeOrderUpd_pending_eq oId bId o (classPend_pending ho)
    · exact FIFOStep_of_eq (by
        rw [show step (Event.fire bId oId) s = timerFire bId oId s from rfl,
          timerFire_eq_not_mem _ _ _ hmem])
  | removal oid =>
    by_cases hmem : oid ∈ s.removals
    · refine FIFOStep_of_sublist ?_
      have horders : (step (Event.removal oid) s).orders =
          s.orders.filter fun o => !(o.id == oid) := by
        show (removalFire oid s).orders = _
        unfold removalFire
        rw [if_pos hmem]
      show (((step (Event.removal oid) s).orders.filter
          (classPend vip)).map fun o => o.id).Sublist (pendingIdsOf vip s)
      rw [horders]
      exact pids_filter_sublist vip _ s.orders
    · refine FIFOStep_of_eq ?_
      have hid : step (Event.removal oid) s = s := by
        show removalFire oid s = s
        unfold removalFire
        rw [if_neg hmem]
      rw [hid]
  | reconcile now =>
    rcases hidle : s.bots.filter Bot.isIdle with _ | ⟨bb, bs2⟩
    · exact FIFOStep_of_eq (by
        rw [show step (Event.reconcile now) s = matchPass now s from rfl,
          matchPass_eq_id_noidle now s hidle])
    · rcases hpr : prioritizedOf s with _ | ⟨ot, os2⟩
      · exact FIFOStep_of_eq (by
          rw [show step (Event.reconcile now) s = matchPass now s from rfl,
            matchPass_eq_id_nopr now s hpr])
      · refine FIFOStep_of_sublist ?_
        have horders : (step (Event.reconcile now) s).orders =
            s.orders.map (assignOrderUpd ot.id bb.id now) := by
          rw [show step (Event.reconcile now) s = matchPass now s from rfl,
            matchPass_eq_assign now s bb bs2 ot os2 hidle hpr]
          rfl
        show (((step (Event.reconcile now) s).orders.filter
            (classPend vip)).map fun o => o.id).Sublist (pendingIdsOf vip s)
        rw [horders]
        exact pids_map_sublist vip _ s.orders fun o ho =>
          assignOrderUpd_pending_eq _ _ _ o (classPend_pending ho)
  | tick now =>
    exact FIFOStep_of_eq
      (pids_map_eq vip _ s.orders (tickUpd_id now) (tickUpd_status now)
        (tickUpd_isVIP now))
  | anim =>
    exact FIFOStep_of_eq
      (pids_map_eq vip _ s.orders animUpd_id animUpd_status animUpd_isVIP)

/-- C3: in every reachable state the PENDING subsequence has all VIP
orders before all NORMAL orders, and every further event keeps each
priority class in FIFO order: surviving pending ids keep their relative
order and any id newly entering PENDING goes behind them. -/
theorem C3_pending_queue_invariant (s : SysState) (h : Reachable s) :
    PendingOrdered s.orders ∧ ∀ e vip, FIFOStep s (step e s) vip := by
  have hInv := reachable_inv s h
  exact ⟨hInv.2.2.2.2.1, fun e vip => FIFO_all s hInv e vip⟩

/-- Witness for C3 at the reachable one-pending-order state. -/
theorem C3_pending_queue_invariant_witness :
    PendingOrdered sP.orders ∧ ∀ e vip, FIFOStep sP (step e sP) vip :=
  C3_pending_queue_invariant sP
    (Reachable.next Event.submitNormal initState Reachable.init)

end McD
